import Mathlib

/-!
# Image pull secrets of `pkg/kube/secrets.go`

A shallow embedding of the Go file `pkg/kube/secrets.go` and the properties of
its functions.

Modelling conventions.

* A Go `string` is a Lean `String`; a Go `[]byte` is a `List UInt8`, and the
  conversion `[]byte(s)` is the UTF-8 byte sequence of `s`.
* A Go `map[string]V` is a `GoMap V`: the list of its entries, in the order in
  which a `range` loop visits them.  Go leaves that order undefined, so every
  statement below is proved for every order.  `GoMap.index` is `m[k]` (comma-ok
  form) and `GoMap.store` is the assignment `m[k] = v`.  A real Go map has
  pairwise distinct keys (`GoMap.WF`).
* A function returning `(T, error)` returns `Except GoError T`; the Go
  `return nil, err` is `.error err`.
* The Kubernetes API server is a snapshot: a lookup `(namespace, name)` has one
  answer for the duration of a call.  The readers return, next to their result,
  the list of the API requests they issued, in order.
* The `context.Context` argument is only handed on to the API and is left out.
-/

set_option maxRecDepth 8192
set_option linter.dupNamespace false

namespace Kube

/-! ## Go values -/

/-- Go `[]byte`. -/
abbrev Bytes := List UInt8

/-- The conversion `[]byte(s)` of a Go string. -/
def bytesOfString (s : String) : Bytes := s.toUTF8.data.toList

/-- A Go `error`: either an error that only carries a message, or the value
built by `fmt.Errorf` with a `%w` verb, which carries its formatted message and
the error it wraps. -/
inductive GoError where
  | errorString (s : String)
  | wrapError (msg : String) (err : GoError)
  deriving DecidableEq, Repr

/-- The method `Error()` of a Go `error`. -/
def GoError.Error : GoError → String
  | .errorString s => s
  | .wrapError msg _ => msg

/-- The method `Unwrap()` of a Go `error`. -/
def GoError.Unwrap : GoError → Option GoError
  | .errorString _ => none
  | .wrapError _ err => some err

deriving instance DecidableEq for Except

/-- Go `map[string]V`, as the list of its entries in `range` order. -/
abbrev GoMap (V : Type) := List (String × V)

/-- The keys of a map, in `range` order. -/
def GoMap.keys {V : Type} (m : GoMap V) : List String := m.map Prod.fst

/-- A Go map holds every key once. -/
def GoMap.WF {V : Type} (m : GoMap V) : Prop := m.keys.Nodup

instance {V : Type} (m : GoMap V) : Decidable m.WF := by
  unfold GoMap.WF; infer_instance

/-- The lookup `v, ok := m[k]`. -/
def GoMap.index {V : Type} : GoMap V → String → Option V
  | [], _ => none
  | (k', v) :: rest, k => if k' = k then some v else GoMap.index rest k

/-- The assignment `m[k] = v`: an existing key keeps its place and gets the new
value, a new key is added. -/
def GoMap.store {V : Type} : GoMap V → String → V → GoMap V
  | [], k, v => [(k, v)]
  | (k', v') :: rest, k, v =>
    if k' = k then (k', v) :: rest else (k', v') :: GoMap.store rest k v

/-! ## Kubernetes objects (the fields the file uses) -/

/-- Type `metav1.ObjectMeta`. -/
structure ObjectMeta where
  Name : String
  Namespace : String
  deriving DecidableEq, Repr

/-- Type `corev1.LocalObjectReference`. -/
structure LocalObjectReference where
  Name : String
  deriving DecidableEq, Repr

/-- Type `corev1.Secret`; `SecretType` is its Go field `Type`. -/
structure Secret where
  ObjectMeta : ObjectMeta
  SecretType : String
  Data : GoMap Bytes
  deriving DecidableEq, Repr

/-- Type `corev1.ServiceAccount`. -/
structure ServiceAccount where
  ObjectMeta : ObjectMeta
  ImagePullSecrets : List LocalObjectReference
  deriving DecidableEq, Repr

/-- Type `corev1.PodSpec`. -/
structure PodSpec where
  ImagePullSecrets : List LocalObjectReference
  ServiceAccountName : String
  deriving DecidableEq, Repr

/-- Constant `corev1.SecretTypeDockerConfigJson`. -/
def SecretTypeDockerConfigJson : String := "kubernetes.io/dockerconfigjson"

/-- Constant `corev1.DockerConfigJsonKey`. -/
def DockerConfigJsonKey : String := ".dockerconfigjson"

/-- Type `ContainerImages`: container name to image reference. -/
abbrev ContainerImages := GoMap String

/-! ## The API server and the two clients -/

/-- A request sent to the API server. -/
inductive ApiCall where
  | getSecret (ns name : String)
  | getServiceAccount (ns name : String)
  deriving DecidableEq, Repr

/-- Interface `kubernetes.Interface`, as far as the file uses it:
`CoreV1().Secrets(ns).Get(ctx, name, opts)` and
`CoreV1().ServiceAccounts(ns).Get(ctx, name, opts)`. -/
structure Clientset where
  SecretsGet : (ns name : String) → Except GoError Secret
  ServiceAccountsGet : (ns name : String) → Except GoError ServiceAccount

/-- Type `client.ObjectKey`. -/
structure ObjectKey where
  Name : String
  Namespace : String
  deriving DecidableEq, Repr

/-- Interface `client.Client` of controller-runtime, as far as the file uses it:
`Get(ctx, key, obj)` with `obj` a `*corev1.Secret` or a
`*corev1.ServiceAccount`. -/
structure Client where
  GetSecret : ObjectKey → Except GoError Secret
  GetServiceAccount : ObjectKey → Except GoError ServiceAccount

/-- The result of a reader method and the API requests it issued. -/
abbrev Listing := Except GoError (List Secret) × List ApiCall

/-- Constant `serviceAccountDefault`. -/
def serviceAccountDefault : String := "default"

/-! ## `reader`: the client-go implementation -/

/-- Type `reader`. -/
structure reader where
  clientset : Clientset

/-- The `for _, secretRef := range refs` loop of
`reader.ListByLocalObjectReferences`, from the state (`secrets`, requests so
far). -/
def reader.listLoop (r : reader) (ns : String) :
    List LocalObjectReference → List Secret → List ApiCall → Listing
  | [], secrets, calls => (.ok secrets, calls)
  | secretRef :: rest, secrets, calls =>
    match r.clientset.SecretsGet ns secretRef.Name with
    | .error err =>
      (.error (.wrapError
        ("getting secret by name: " ++ ns ++ "/" ++ secretRef.Name ++ ": " ++ err.Error) err),
        calls ++ [.getSecret ns secretRef.Name])
    | .ok secret =>
      reader.listLoop r ns rest (secrets ++ [secret]) (calls ++ [.getSecret ns secretRef.Name])

/-- Method `reader.ListByLocalObjectReferences`. -/
def reader.ListByLocalObjectReferences (r : reader) (refs : List LocalObjectReference)
    (ns : String) : Listing :=
  reader.listLoop r ns refs [] []

/-- Method `reader.ListByServiceAccount`. -/
def reader.ListByServiceAccount (r : reader) (name ns : String) : Listing :=
  match r.clientset.ServiceAccountsGet ns name with
  | .error err =>
    (.error (.wrapError
      ("getting service account by name: " ++ ns ++ "/" ++ name ++ ": " ++ err.Error) err),
      [.getServiceAccount ns name])
  | .ok sa =>
    let (res, calls) := r.ListByLocalObjectReferences sa.ImagePullSecrets ns
    (res, .getServiceAccount ns name :: calls)

/-- Method `reader.ListImagePullSecretsByPodSpec`. -/
def reader.ListImagePullSecretsByPodSpec (r : reader) (spec : PodSpec) (ns : String) :
    Listing :=
  match r.ListByLocalObjectReferences spec.ImagePullSecrets ns with
  | (.error err, calls) => (.error err, calls)
  | (.ok secrets, calls) =>
    let serviceAccountName :=
      if spec.ServiceAccountName = "" then serviceAccountDefault else spec.ServiceAccountName
    match r.ListByServiceAccount serviceAccountName ns with
    | (.error err, calls') => (.error err, calls ++ calls')
    | (.ok serviceAccountSecrets, calls') => (.ok (secrets ++ serviceAccountSecrets), calls ++ calls')

/-! ## `crReader`: the controller-runtime implementation -/

/-- Type `crReader`. -/
structure crReader where
  client : Client

/-- The `for _, secretRef := range refs` loop of
`crReader.ListByLocalObjectReferences`. -/
def crReader.listLoop (r : crReader) (ns : String) :
    List LocalObjectReference → List Secret → List ApiCall → Listing
  | [], secrets, calls => (.ok secrets, calls)
  | secretRef :: rest, secrets, calls =>
    match r.client.GetSecret { Name := secretRef.Name, Namespace := ns } with
    | .error err =>
      (.error (.wrapError
        ("getting secret by name: " ++ ns ++ "/" ++ secretRef.Name ++ ": " ++ err.Error) err),
        calls ++ [.getSecret ns secretRef.Name])
    | .ok secret =>
      crReader.listLoop r ns rest (secrets ++ [secret]) (calls ++ [.getSecret ns secretRef.Name])

/-- Method `crReader.ListByLocalObjectReferences`. -/
def crReader.ListByLocalObjectReferences (r : crReader) (refs : List LocalObjectReference)
    (ns : String) : Listing :=
  crReader.listLoop r ns refs [] []

/-- Method `crReader.ListByServiceAccount`. -/
def crReader.ListByServiceAccount (r : crReader) (name ns : String) : Listing :=
  match r.client.GetServiceAccount { Name := name, Namespace := ns } with
  | .error err =>
    (.error (.wrapError
      ("getting service account by name: " ++ ns ++ "/" ++ name ++ ": " ++ err.Error) err),
      [.getServiceAccount ns name])
  | .ok sa =>
    let (res, calls) := r.ListByLocalObjectReferences sa.ImagePullSecrets ns
    (res, .getServiceAccount ns name :: calls)

/-- Method `crReader.ListImagePullSecretsByPodSpec`. -/
def crReader.ListImagePullSecretsByPodSpec (r : crReader) (spec : PodSpec) (ns : String) :
    Listing :=
  match r.ListByLocalObjectReferences spec.ImagePullSecrets ns with
  | (.error err, calls) => (.error err, calls)
  | (.ok secrets, calls) =>
    let serviceAccountName :=
      if spec.ServiceAccountName = "" then serviceAccountDefault else spec.ServiceAccountName
    match r.ListByServiceAccount serviceAccountName ns with
    | (.error err, calls') => (.error err, calls ++ calls')
    | (.ok serviceAccountSecrets, calls') => (.ok (secrets ++ serviceAccountSecrets), calls ++ calls')

/-! ## Package `docker`

The file imports `pkg/docker`; its code is not part of the file.  Its two types
are modelled from the specification and its functions enter as parameters. -/

/-- Modelled from the spec: the type `docker.Auth`, the "Credential" of the data
model, "{username, password, encoded basic-auth token}". -/
structure Auth where
  Auth : String
  Username : String
  Password : String
  deriving DecidableEq, Repr

/-- Modelled from the spec: the type `docker.Config`, the "DockerConfig
document", a "mapping from registry server string to Credential". -/
structure Config where
  Auths : GoMap Auth
  deriving DecidableEq, Repr

/-- The functions of package `docker` that the file calls.  `Read` is the state
of a fresh `&docker.Config{}` after `Read(contents)` returned without error. -/
structure Docker where
  Write : Config → Except GoError Bytes
  Read : Bytes → Except GoError Config
  NewBasicAuth : String → String → String
  GetHostFromServer : String → Except GoError String
  GetServerFromImageRef : String → Except GoError String

/-! ## The functions on Docker configurations -/

/-- Function `NewImagePullSecret`. -/
def NewImagePullSecret (D : Docker) (meta : ObjectMeta) (server username password : String) :
    Except GoError Secret :=
  match D.Write { Auths := [(server, { Username := username, Password := password,
                                       Auth := D.NewBasicAuth username password })] } with
  | .error err => .error err
  | .ok dockerConfig =>
    .ok { ObjectMeta := meta
          SecretType := SecretTypeDockerConfigJson
          Data := [(DockerConfigJsonKey, dockerConfig)] }

/-- The inner loop `for server, auth := range dockerConfig.Auths` of
`MapDockerRegistryServersToAuths`, from the map `auths` built so far. -/
def MapDockerRegistryServersToAuths.authsLoop (D : Docker) :
    GoMap Auth → GoMap Auth → Except GoError (GoMap Auth)
  | [], auths => .ok auths
  | (server, auth) :: rest, auths =>
    match D.GetHostFromServer server with
    | .error err => .error err
    | .ok host => MapDockerRegistryServersToAuths.authsLoop D rest (auths.store host auth)

/-- The bytes `secret.Data[corev1.DockerConfigJsonKey]`; a missing key gives the
nil slice, which has no bytes. -/
def dockerConfigJson (secret : Secret) : Bytes :=
  (secret.Data.index DockerConfigJsonKey).getD []

/-- The outer loop `for _, secret := range imagePullSecrets` of
`MapDockerRegistryServersToAuths`, from the map `auths` built so far. -/
def MapDockerRegistryServersToAuths.secretsLoop (D : Docker) :
    List Secret → GoMap Auth → Except GoError (GoMap Auth)
  | [], auths => .ok auths
  | secret :: rest, auths =>
    match D.Read (dockerConfigJson secret) with
    | .error err => .error err
    | .ok dockerConfig =>
      match MapDockerRegistryServersToAuths.authsLoop D dockerConfig.Auths auths with
      | .error err => .error err
      | .ok auths' => MapDockerRegistryServersToAuths.secretsLoop D rest auths'

/-- Function `MapDockerRegistryServersToAuths`. -/
def MapDockerRegistryServersToAuths (D : Docker) (imagePullSecrets : List Secret) :
    Except GoError (GoMap Auth) :=
  MapDockerRegistryServersToAuths.secretsLoop D imagePullSecrets []

/-- The loop `for containerName, imageRef := range images` of
`MapContainerNamesToDockerAuths`, from the map `mapping` built so far. -/
def MapContainerNamesToDockerAuths.imagesLoop (D : Docker) (auths : GoMap Auth) :
    ContainerImages → GoMap Auth → Except GoError (GoMap Auth)
  | [], mapping => .ok mapping
  | (containerName, imageRef) :: rest, mapping =>
    match D.GetServerFromImageRef imageRef with
    | .error err => .error err
    | .ok server =>
      match auths.index server with
      | some auth =>
        MapContainerNamesToDockerAuths.imagesLoop D auths rest (mapping.store containerName auth)
      | none => MapContainerNamesToDockerAuths.imagesLoop D auths rest mapping

/-- Function `MapContainerNamesToDockerAuths`. -/
def MapContainerNamesToDockerAuths (D : Docker) (images : ContainerImages)
    (secrets : List Secret) : Except GoError (GoMap Auth) :=
  match MapDockerRegistryServersToAuths D secrets with
  | .error err => .error err
  | .ok auths => MapContainerNamesToDockerAuths.imagesLoop D auths images []

/-- The loop `for containerName := range images` of
`AggregateImagePullSecretsData`, from the map `secretData` built so far.
`fmt.Sprintf("%s.username", containerName)` is `containerName ++ ".username"`. -/
def AggregateImagePullSecretsData.loop (credentials : GoMap Auth) :
    ContainerImages → GoMap Bytes → GoMap Bytes
  | [], secretData => secretData
  | (containerName, _) :: rest, secretData =>
    match credentials.index containerName with
    | some dockerAuth =>
      AggregateImagePullSecretsData.loop credentials rest
        ((secretData.store (containerName ++ ".username") (bytesOfString dockerAuth.Username)).store
          (containerName ++ ".password") (bytesOfString dockerAuth.Password))
    | none => AggregateImagePullSecretsData.loop credentials rest secretData

/-- Function `AggregateImagePullSecretsData`. -/
def AggregateImagePullSecretsData (images : ContainerImages) (credentials : GoMap Auth) :
    GoMap Bytes :=
  AggregateImagePullSecretsData.loop credentials images []

/-! ## Vocabulary of the statements -/

/-- The requests issued when every Secret of `refs` is fetched in namespace `ns`. -/
def secretCalls (ns : String) (refs : List LocalObjectReference) : List ApiCall :=
  refs.map fun ref => ApiCall.getSecret ns ref.Name

/-- The clientset that answers like the controller-runtime client `c`. -/
def Client.asClientset (c : Client) : Clientset where
  SecretsGet := fun ns name => c.GetSecret { Name := name, Namespace := ns }
  ServiceAccountsGet := fun ns name => c.GetServiceAccount { Name := name, Namespace := ns }

/-- The error `fmt.Errorf("getting secret by name: %s/%s: %w", ns, name, err)`. -/
def secretError (ns name : String) (err : GoError) : GoError :=
  .wrapError ("getting secret by name: " ++ ns ++ "/" ++ name ++ ": " ++ err.Error) err

/-- The error `fmt.Errorf("getting service account by name: %s/%s: %w", ns, name, err)`. -/
def serviceAccountError (ns name : String) (err : GoError) : GoError :=
  .wrapError ("getting service account by name: " ++ ns ++ "/" ++ name ++ ": " ++ err.Error) err

/-- What `ListByLocalObjectReferences(refs, ns)` promises about its outcome
`out`, when `get ns name` is the answer of the API server for the Secret
`(ns, name)`: it fails exactly when one of the fetches fails; the error is the
one built from the first reference whose fetch fails; on success the i-th
result is the Secret fetched for the i-th reference; no reference, no Secret. -/
def ListByLocalObjectReferencesContract (get : String → String → Except GoError Secret)
    (refs : List LocalObjectReference) (ns : String) (out : Listing) : Prop :=
  ((∃ err, out.1 = .error err) ↔ ∃ ref ∈ refs, ∃ e, get ns ref.Name = .error e) ∧
  (∀ pre ref post e, refs = pre ++ ref :: post →
      (∀ x ∈ pre, ∃ s, get ns x.Name = .ok s) → get ns ref.Name = .error e →
      out.1 = .error (secretError ns ref.Name e) ∧
      (secretError ns ref.Name e).Error =
        "getting secret by name: " ++ ns ++ "/" ++ ref.Name ++ ": " ++ e.Error ∧
      (secretError ns ref.Name e).Unwrap = some e) ∧
  (∀ secrets, out.1 = .ok secrets →
      secrets.length = refs.length ∧
      ∀ i (h₁ : i < refs.length) (h₂ : i < secrets.length),
        get ns (refs[i]).Name = .ok secrets[i]) ∧
  (refs = [] → out.1 = .ok [])

/-- What `ListByServiceAccount(name, ns)` promises about its outcome `out`, when
`getSA ns name` is the answer of the API server for the ServiceAccount and
`list refs ns` is `ListByLocalObjectReferences` of the same reader. -/
def ListByServiceAccountContract (getSA : String → String → Except GoError ServiceAccount)
    (list : List LocalObjectReference → String → Listing)
    (name ns : String) (out : Listing) : Prop :=
  (∀ e, getSA ns name = .error e →
      out.1 = .error (serviceAccountError ns name e) ∧
      (serviceAccountError ns name e).Error =
        "getting service account by name: " ++ ns ++ "/" ++ name ++ ": " ++ e.Error ∧
      ∀ ns' name', ApiCall.getSecret ns' name' ∉ out.2) ∧
  (∀ sa, getSA ns name = .ok sa → out.1 = (list sa.ImagePullSecrets ns).1)

/-- What `ListImagePullSecretsByPodSpec(spec, ns)` promises when it succeeds
with `res`: `res` is the Secrets of the Pod followed by the Secrets of the
ServiceAccount, nothing removed. -/
def ListImagePullSecretsByPodSpecContract (get : String → String → Except GoError Secret)
    (getSA : String → String → Except GoError ServiceAccount)
    (list : List LocalObjectReference → String → Listing)
    (listSA : String → String → Listing)
    (spec : PodSpec) (ns : String) (res : List Secret) : Prop :=
  ∃ own saSecrets sa,
    (list spec.ImagePullSecrets ns).1 = .ok own ∧
    (listSA (if spec.ServiceAccountName = "" then "default" else spec.ServiceAccountName) ns).1
      = .ok saSecrets ∧
    res = own ++ saSecrets ∧
    getSA ns (if spec.ServiceAccountName = "" then "default" else spec.ServiceAccountName)
      = .ok sa ∧
    res.length = spec.ImagePullSecrets.length + sa.ImagePullSecrets.length ∧
    ∀ n, { Name := n } ∈ spec.ImagePullSecrets → { Name := n } ∈ sa.ImagePullSecrets →
      ∃ s, get ns n = .ok s ∧ 2 ≤ res.count s

/-- The Secret `s` makes `MapDockerRegistryServersToAuths` fail: `Read` fails on
the bytes under its `.dockerconfigjson` key, or `GetHostFromServer` fails on a
server key of its parsed configuration. -/
def SecretFails (D : Docker) (s : Secret) : Prop :=
  (∃ e, D.Read (dockerConfigJson s) = .error e) ∨
  ∃ cfg, D.Read (dockerConfigJson s) = .ok cfg ∧
    ∃ server ∈ cfg.Auths.keys, ∃ e, D.GetHostFromServer server = .error e

/-- The entry `(k, v)` is one of the two entries of a matched container: a
container name `c` that is a key of `images` and of `credentials`, with `k` the
key `c.username` and `v` the bytes of the user name, or `k` the key `c.password`
and `v` the bytes of the password. -/
def AggregatedEntry (images : ContainerImages) (credentials : GoMap Auth) (k : String)
    (v : Bytes) : Prop :=
  ∃ c a, c ∈ images.keys ∧ credentials.index c = some a ∧
    ((k = c ++ ".username" ∧ v = bytesOfString a.Username) ∨
     (k = c ++ ".password" ∧ v = bytesOfString a.Password))

/-- The matched containers: the entries of `images` whose container name is a key
of `credentials`. -/
def matchedContainers (images : ContainerImages) (credentials : GoMap Auth) :
    List (String × String) :=
  images.filter fun e => (credentials.index e.1).isSome

/-- The container `c` of `images` has the credential `a` in `auths`: `c` is a key
of `images`, and `a` is the entry of `auths` at
`docker.GetServerFromImageRef(images[c])`. -/
def ContainerCredential (D : Docker) (auths : GoMap Auth) (images : ContainerImages)
    (c : String) (a : Auth) : Prop :=
  ∃ imageRef server, images.index c = some imageRef ∧
    D.GetServerFromImageRef imageRef = .ok server ∧ auths.index server = some a

/-- The codec of package `docker` is a codec: what `Write` produces, `Read`
parses back into a configuration with the same entries. -/
def ReadInvertsWrite (D : Docker) : Prop :=
  ∀ cfg b, D.Write cfg = .ok b → ∃ cfg', D.Read b = .ok cfg' ∧ cfg'.Auths.Perm cfg.Auths

/-- What `ListImagePullSecretsByPodSpec(spec, ns)` does for a PodSpec without
ServiceAccount name once the Secrets `own` of the Pod are fetched, `out` being
its outcome, `getSA` the answer of the API server for a ServiceAccount and
`list` the method `ListByLocalObjectReferences` of the same reader: the
ServiceAccount `default` of `ns` is requested, and its answer decides the
result: its failure is the error returned, and its `ImagePullSecrets` are the
references whose Secrets follow `own` in the result. -/
def UsesDefaultServiceAccount (getSA : String → String → Except GoError ServiceAccount)
    (list : List LocalObjectReference → String → Listing)
    (spec : PodSpec) (ns : String) (out : Listing) : Prop :=
  ∀ own, (list spec.ImagePullSecrets ns).1 = .ok own →
    ApiCall.getServiceAccount ns "default" ∈ out.2 ∧
    (∀ e, getSA ns "default" = .error e →
      out.1 = .error (serviceAccountError ns "default" e)) ∧
    (∀ sa, getSA ns "default" = .ok sa →
      (∀ saSecrets, (list sa.ImagePullSecrets ns).1 = .ok saSecrets →
        out.1 = .ok (own ++ saSecrets)) ∧
      (∀ err, (list sa.ImagePullSecrets ns).1 = .error err → out.1 = .error err))

/-! ## An API server for the examples -/

/-- A Secret without data named `name` in the namespace `prod`. -/
def demoSecret (name : String) : Secret :=
  { ObjectMeta := { Name := name, Namespace := "prod" }
    SecretType := SecretTypeDockerConfigJson
    Data := [] }

/-- Namespace `prod` holds the Secrets `regcred` and `extra` and the
ServiceAccounts `default` (referring to `regcred`) and `builder` (referring to
`extra` and to the missing `gone`). -/
def demoClientset : Clientset where
  SecretsGet := fun ns name =>
    if ns = "prod" ∧ (name = "regcred" ∨ name = "extra") then .ok (demoSecret name)
    else .error (.errorString ("secrets \"" ++ name ++ "\" not found"))
  ServiceAccountsGet := fun ns name =>
    if ns = "prod" ∧ name = "default" then
      .ok { ObjectMeta := { Name := name, Namespace := ns }
            ImagePullSecrets := [{ Name := "regcred" }] }
    else if ns = "prod" ∧ name = "builder" then
      .ok { ObjectMeta := { Name := name, Namespace := ns }
            ImagePullSecrets := [{ Name := "extra" }, { Name := "gone" }] }
    else .error (.errorString ("serviceaccounts \"" ++ name ++ "\" not found"))

/-- The controller-runtime client of the same API server. -/
def demoClient : Client where
  GetSecret := fun key => demoClientset.SecretsGet key.Namespace key.Name
  GetServiceAccount := fun key => demoClientset.ServiceAccountsGet key.Namespace key.Name

/-! ## A package `docker` for the examples

A small binary codec stands in for the JSON codec: a string is its characters,
each as the byte 1 and the three bytes of its code point, closed by the byte 0;
a configuration is its entries, each as the byte 2 and the four strings server,
auth, user name and password, closed by the byte 3. -/

/-- The bytes of a list of characters. -/
def demoEncodeChars : List Char → Bytes
  | [] => [0]
  | c :: cs =>
    1 :: UInt8.ofNat (c.toNat / 65536) :: UInt8.ofNat (c.toNat / 256 % 256)
      :: UInt8.ofNat (c.toNat % 256) :: demoEncodeChars cs

/-- Parses a list of characters off the front of `b`. -/
def demoDecodeChars : Bytes → Option (List Char × Bytes)
  | [] => none
  | [tag] => if tag = 0 then some ([], []) else none
  | [tag, b₂] => if tag = 0 then some ([], [b₂]) else none
  | [tag, b₂, b₁] => if tag = 0 then some ([], [b₂, b₁]) else none
  | tag :: b₂ :: b₁ :: b₀ :: rest =>
    if tag = 0 then some ([], b₂ :: b₁ :: b₀ :: rest)
    else if tag = 1 then
      match demoDecodeChars rest with
      | some (cs, rest') =>
        some (Char.ofNat (b₂.toNat * 65536 + b₁.toNat * 256 + b₀.toNat) :: cs, rest')
      | none => none
    else none

/-- The bytes of a list of entries. -/
def demoEncodeEntries : GoMap Auth → Bytes
  | [] => [3]
  | (server, auth) :: rest =>
    2 :: (demoEncodeChars server.data ++ (demoEncodeChars auth.Auth.data ++
      (demoEncodeChars auth.Username.data ++ (demoEncodeChars auth.Password.data ++
        demoEncodeEntries rest))))

/-- Parses at most `fuel` entries and the closing byte from `b`. -/
def demoDecodeEntries : Nat → Bytes → Option (GoMap Auth)
  | 0, _ => none
  | _ + 1, [] => none
  | fuel + 1, tag :: rest =>
    if tag = 3 then (if rest = [] then some [] else none)
    else if tag = 2 then
      match demoDecodeChars rest with
      | none => none
      | some (server, r₁) =>
        match demoDecodeChars r₁ with
        | none => none
        | some (auth, r₂) =>
          match demoDecodeChars r₂ with
          | none => none
          | some (username, r₃) =>
            match demoDecodeChars r₃ with
            | none => none
            | some (password, r₄) =>
              match demoDecodeEntries fuel r₄ with
              | none => none
              | some entries =>
                some ((String.mk server,
                  { Auth := String.mk auth, Username := String.mk username,
                    Password := String.mk password }) :: entries)
    else none

/-- The registry host of a server: the scheme `https://` or `http://` and the
path are dropped; a server without host is refused. -/
def demoGetHostFromServer (server : String) : Except GoError String :=
  let cs := server.data
  let stripped :=
    if "https://".data.isPrefixOf cs then cs.drop 8
    else if "http://".data.isPrefixOf cs then cs.drop 7
    else cs
  let host := stripped.takeWhile fun c => c ≠ '/'
  if host = [] then .error (.errorString "no host in server") else .ok (String.mk host)

/-- The registry server of an image reference: the part before the first `/` when
it looks like a host, else Docker Hub; the empty reference is refused. -/
def demoGetServerFromImageRef (imageRef : String) : Except GoError String :=
  let cs := imageRef.data
  let first := cs.takeWhile fun c => c ≠ '/'
  if cs = [] then .error (.errorString "could not parse reference")
  else if first.length < cs.length ∧ ('.' ∈ first ∨ ':' ∈ first) then .ok (String.mk first)
  else .ok "index.docker.io"

/-- A package `docker` with the binary codec. -/
def demoDocker : Docker where
  Write := fun cfg => .ok (demoEncodeEntries cfg.Auths)
  Read := fun b =>
    match demoDecodeEntries b.length b with
    | some auths => .ok { Auths := auths }
    | none => .error (.errorString "malformed docker config")
  NewBasicAuth := fun username password => username ++ ":" ++ password
  GetHostFromServer := demoGetHostFromServer
  GetServerFromImageRef := demoGetServerFromImageRef

/-- An image pull Secret of namespace `prod` holding the configuration `auths`. -/
def demoConfigSecret (name : String) (auths : GoMap Auth) : Secret :=
  { ObjectMeta := { Name := name, Namespace := "prod" }
    SecretType := SecretTypeDockerConfigJson
    Data := [(DockerConfigJsonKey, demoEncodeEntries auths)] }

/-- A Secret whose `.dockerconfigjson` bytes are no configuration. -/
def demoMalformedSecret : Secret :=
  { ObjectMeta := { Name := "broken", Namespace := "prod" }
    SecretType := SecretTypeDockerConfigJson
    Data := [(DockerConfigJsonKey, [123])] }

/-! ## Lemmas on the readers -/

theorem reader.listLoop_ok (r : reader) (ns : String) :
    ∀ (refs : List LocalObjectReference) (got secrets : List Secret) (calls : List ApiCall),
      List.Forall₂ (fun ref s => r.clientset.SecretsGet ns ref.Name = .ok s) refs got →
      reader.listLoop r ns refs secrets calls
        = (.ok (secrets ++ got), calls ++ secretCalls ns refs) := by
  intro refs got secrets calls h
  induction h generalizing secrets calls with
  | nil => simp [reader.listLoop, secretCalls]
  | cons hd _ ih =>
    simp only [reader.listLoop, hd]
    rw [ih]
    simp [secretCalls]

theorem reader.listLoop_error (r : reader) (ns : String) :
    ∀ (pre : List LocalObjectReference) (got : List Secret) (ref : LocalObjectReference)
      (post : List LocalObjectReference) (e : GoError) (secrets : List Secret)
      (calls : List ApiCall),
      List.Forall₂ (fun ref s => r.clientset.SecretsGet ns ref.Name = .ok s) pre got →
      r.clientset.SecretsGet ns ref.Name = .error e →
      reader.listLoop r ns (pre ++ ref :: post) secrets calls
        = (.error (secretError ns ref.Name e), calls ++ secretCalls ns (pre ++ [ref])) := by
  intro pre got ref post e secrets calls h he
  induction h generalizing secrets calls with
  | nil => simp [reader.listLoop, secretCalls, he, secretError]
  | cons hd _ ih =>
    rw [List.cons_append]
    simp only [reader.listLoop, hd]
    rw [ih]
    simp [secretCalls]

/-- Either every fetch succeeds, or there is a first one that fails. -/
theorem fetch_cases (get : String → Except GoError Secret) :
    ∀ refs : List LocalObjectReference,
      (∃ got, List.Forall₂ (fun ref s => get ref.Name = .ok s) refs got) ∨
      (∃ pre got ref post e, refs = pre ++ ref :: post ∧
        List.Forall₂ (fun ref s => get ref.Name = .ok s) pre got ∧
        get ref.Name = .error e) := by
  intro refs
  induction refs with
  | nil => exact Or.inl ⟨[], List.Forall₂.nil⟩
  | cons ref rest ih =>
    cases hget : get ref.Name with
    | error e => exact Or.inr ⟨[], [], ref, rest, e, rfl, List.Forall₂.nil, hget⟩
    | ok s =>
      rcases ih with ⟨got, hgot⟩ | ⟨pre, got, ref', post, e, hrefs, hpre, he⟩
      · exact Or.inl ⟨s :: got, List.Forall₂.cons hget hgot⟩
      · exact Or.inr ⟨ref :: pre, s :: got, ref', post, e, by simp [hrefs],
          List.Forall₂.cons hget hpre, he⟩

theorem fetch_all_ok_of_forall₂ (get : String → Except GoError Secret)
    {refs : List LocalObjectReference} {got : List Secret}
    (h : List.Forall₂ (fun ref s => get ref.Name = .ok s) refs got) :
    ∀ x ∈ refs, ∃ s, get x.Name = .ok s := by
  induction h with
  | nil => simp
  | cons hd _ ih =>
    intro x hx
    rcases List.mem_cons.1 hx with rfl | hx
    · exact ⟨_, hd⟩
    · exact ih x hx

theorem fetch_forall₂_of_all_ok (get : String → Except GoError Secret) :
    ∀ refs : List LocalObjectReference, (∀ x ∈ refs, ∃ s, get x.Name = .ok s) →
      ∃ got, List.Forall₂ (fun ref s => get ref.Name = .ok s) refs got := by
  intro refs
  induction refs with
  | nil => intro _; exact ⟨[], List.Forall₂.nil⟩
  | cons ref rest ih =>
    intro h
    obtain ⟨s, hs⟩ := h ref (List.mem_cons_self _ _)
    obtain ⟨got, hgot⟩ := ih fun x hx => h x (List.mem_cons_of_mem _ hx)
    exact ⟨s :: got, List.Forall₂.cons hs hgot⟩

theorem reader.listByLocalObjectReferences_contract (r : reader)
    (refs : List LocalObjectReference) (ns : String) :
    ListByLocalObjectReferencesContract r.clientset.SecretsGet refs ns
      (r.ListByLocalObjectReferences refs ns) := by
  unfold ListByLocalObjectReferencesContract reader.ListByLocalObjectReferences
  refine ⟨?_, ?_, ?_, ?_⟩
  · rcases fetch_cases (r.clientset.SecretsGet ns) refs with
      ⟨got, hgot⟩ | ⟨pre, got, ref, post, e, hrefs, hpre, he⟩
    · rw [reader.listLoop_ok r ns refs got [] [] hgot]
      constructor
      · rintro ⟨err, herr⟩
        cases herr
      · rintro ⟨ref, href, e, he⟩
        obtain ⟨s, hs⟩ := fetch_all_ok_of_forall₂ _ hgot ref href
        rw [hs] at he
        cases he
    · subst hrefs
      rw [reader.listLoop_error r ns pre got ref post e [] [] hpre he]
      exact ⟨fun _ => ⟨ref, by simp, e, he⟩, fun _ => ⟨_, rfl⟩⟩
  · intro pre ref post e hrefs hpre he
    subst hrefs
    obtain ⟨got, hgot⟩ := fetch_forall₂_of_all_ok (r.clientset.SecretsGet ns) pre hpre
    rw [reader.listLoop_error r ns pre got ref post e [] [] hgot he]
    exact ⟨rfl, rfl, rfl⟩
  · intro secrets hok
    rcases fetch_cases (r.clientset.SecretsGet ns) refs with
      ⟨got, hgot⟩ | ⟨pre, got, ref, post, e, hrefs, hpre, he⟩
    · rw [reader.listLoop_ok r ns refs got [] [] hgot] at hok
      simp only [List.nil_append, Except.ok.injEq] at hok
      subst hok
      refine ⟨hgot.length_eq.symm, ?_⟩
      intro i h₁ h₂
      exact List.Forall₂.get hgot h₁ h₂
    · subst hrefs
      rw [reader.listLoop_error r ns pre got ref post e [] [] hpre he] at hok
      cases hok
  · rintro rfl
    rfl

theorem crReader.listLoop_eq (r : crReader) (ns : String) :
    ∀ (refs : List LocalObjectReference) (secrets : List Secret) (calls : List ApiCall),
      crReader.listLoop r ns refs secrets calls
        = reader.listLoop { clientset := r.client.asClientset } ns refs secrets calls := by
  intro refs
  induction refs with
  | nil => intro secrets calls; rfl
  | cons ref rest ih =>
    intro secrets calls
    simp only [crReader.listLoop, reader.listLoop, Client.asClientset]
    cases r.client.GetSecret { Name := ref.Name, Namespace := ns } with
    | error e => rfl
    | ok s => simpa [Client.asClientset] using ih _ _

theorem crReader.listByLocalObjectReferences_eq (r : crReader)
    (refs : List LocalObjectReference) (ns : String) :
    r.ListByLocalObjectReferences refs ns
      = reader.ListByLocalObjectReferences { clientset := r.client.asClientset } refs ns :=
  crReader.listLoop_eq r ns refs [] []

theorem crReader.listByServiceAccount_eq (r : crReader) (name ns : String) :
    r.ListByServiceAccount name ns
      = reader.ListByServiceAccount { clientset := r.client.asClientset } name ns := by
  simp only [crReader.ListByServiceAccount, reader.ListByServiceAccount,
    crReader.listByLocalObjectReferences_eq]
  rfl

theorem crReader.listImagePullSecretsByPodSpec_eq (r : crReader) (spec : PodSpec) (ns : String) :
    r.ListImagePullSecretsByPodSpec spec ns
      = reader.ListImagePullSecretsByPodSpec { clientset := r.client.asClientset } spec ns := by
  simp only [crReader.ListImagePullSecretsByPodSpec, reader.ListImagePullSecretsByPodSpec,
    crReader.listByLocalObjectReferences_eq, crReader.listByServiceAccount_eq]

/-- C6: for both readers, `ListByLocalObjectReferences(refs, ns)` fails exactly
when the fetch of one of the referenced Secrets fails; its error is then
`getting secret by name: <ns>/<name>: <cause>` for the first reference whose
fetch fails, wrapping the cause, and no Secret is returned; when it succeeds
the result is as long as `refs` and its i-th element is the Secret fetched for
`refs[i]`; without references the result is the empty list. -/
theorem C6_listByLocalObjectReferences (refs : List LocalObjectReference) (ns : String) :
    (∀ r : reader,
      ListByLocalObjectReferencesContract r.clientset.SecretsGet refs ns
        (r.ListByLocalObjectReferences refs ns)) ∧
    (∀ r : crReader,
      ListByLocalObjectReferencesContract
        (fun ns name => r.client.GetSecret { Name := name, Namespace := ns }) refs ns
        (r.ListByLocalObjectReferences refs ns)) := by
  refine ⟨fun r => reader.listByLocalObjectReferences_contract r refs ns, fun r => ?_⟩
  rw [crReader.listByLocalObjectReferences_eq]
  exact reader.listByLocalObjectReferences_contract { clientset := r.client.asClientset } refs ns

theorem reader.listByServiceAccount_contract (r : reader) (name ns : String) :
    ListByServiceAccountContract r.clientset.ServiceAccountsGet r.ListByLocalObjectReferences
      name ns (r.ListByServiceAccount name ns) := by
  unfold ListByServiceAccountContract reader.ListByServiceAccount
  constructor
  · intro e he
    rw [he]
    refine ⟨rfl, rfl, ?_⟩
    intro ns' name' hmem
    simp at hmem
  · intro sa hsa
    rw [hsa]

/-- C7: for both readers, when the fetch of the ServiceAccount `(ns, name)`
fails, `ListByServiceAccount(name, ns)` returns the error
`getting service account by name: <ns>/<name>: <cause>` and has requested no
Secret; when the ServiceAccount is found, its result is the result of
`ListByLocalObjectReferences(sa.ImagePullSecrets, ns)`. -/
theorem C7_listByServiceAccount (name ns : String) :
    (∀ r : reader,
      ListByServiceAccountContract r.clientset.ServiceAccountsGet
        r.ListByLocalObjectReferences name ns (r.ListByServiceAccount name ns)) ∧
    (∀ r : crReader,
      ListByServiceAccountContract
        (fun ns name => r.client.GetServiceAccount { Name := name, Namespace := ns })
        r.ListByLocalObjectReferences name ns (r.ListByServiceAccount name ns)) := by
  refine ⟨fun r => reader.listByServiceAccount_contract r name ns, fun r => ?_⟩
  have h := reader.listByServiceAccount_contract { clientset := r.client.asClientset } name ns
  rw [← crReader.listByServiceAccount_eq] at h
  have hlist : reader.ListByLocalObjectReferences { clientset := r.client.asClientset }
      = r.ListByLocalObjectReferences := by
    funext refs ns'
    exact (crReader.listByLocalObjectReferences_eq r refs ns').symm
  rw [hlist] at h
  exact h

theorem reader.fetched_mem (r : reader) (refs : List LocalObjectReference) (ns : String)
    (secrets : List Secret) (h : (r.ListByLocalObjectReferences refs ns).1 = .ok secrets) :
    secrets.length = refs.length ∧
    ∀ ref ∈ refs, ∃ s, r.clientset.SecretsGet ns ref.Name = .ok s ∧ s ∈ secrets := by
  obtain ⟨hlen, hget⟩ := (reader.listByLocalObjectReferences_contract r refs ns).2.2.1 secrets h
  refine ⟨hlen, ?_⟩
  intro ref href
  obtain ⟨i, hi, rfl⟩ := List.getElem_of_mem href
  exact ⟨secrets[i], hget i hi (hlen ▸ hi), List.getElem_mem _⟩

theorem reader.listImagePullSecretsByPodSpec_contract (r : reader) (spec : PodSpec) (ns : String)
    (res : List Secret) (h : (r.ListImagePullSecretsByPodSpec spec ns).1 = .ok res) :
    ListImagePullSecretsByPodSpecContract r.clientset.SecretsGet r.clientset.ServiceAccountsGet
      r.ListByLocalObjectReferences r.ListByServiceAccount spec ns res := by
  unfold ListImagePullSecretsByPodSpecContract
  unfold reader.ListImagePullSecretsByPodSpec at h
  rcases hown : r.ListByLocalObjectReferences spec.ImagePullSecrets ns with ⟨_ | own, calls⟩
  · rw [hown] at h
    cases h
  rw [hown] at h
  simp only [serviceAccountDefault] at h
  rcases hsa : r.ListByServiceAccount
      (if spec.ServiceAccountName = "" then "default" else spec.ServiceAccountName) ns
    with ⟨_ | saSecrets, calls'⟩
  · rw [hsa] at h
    cases h
  rw [hsa] at h
  simp only [Except.ok.injEq] at h
  have hc := reader.listByServiceAccount_contract r
    (if spec.ServiceAccountName = "" then "default" else spec.ServiceAccountName) ns
  rw [hsa] at hc
  cases hget : r.clientset.ServiceAccountsGet ns
      (if spec.ServiceAccountName = "" then "default" else spec.ServiceAccountName) with
  | error e =>
    have := (hc.1 e hget).1
    cases this
  | ok sa =>
    have hlist := hc.2 sa hget
    obtain ⟨hlen₁, hmem₁⟩ := reader.fetched_mem r spec.ImagePullSecrets ns own
      (by rw [hown])
    obtain ⟨hlen₂, hmem₂⟩ := reader.fetched_mem r sa.ImagePullSecrets ns saSecrets hlist.symm
    refine ⟨own, saSecrets, sa, rfl, rfl, h.symm, rfl, ?_, ?_⟩
    · rw [← h, List.length_append, hlen₁, hlen₂]
    · intro n hn₁ hn₂
      obtain ⟨s, hs, hs₁⟩ := hmem₁ _ hn₁
      obtain ⟨s', hs', hs₂⟩ := hmem₂ _ hn₂
      rw [hs] at hs'
      cases hs'
      refine ⟨s, hs, ?_⟩
      rw [← h, List.count_append]
      have h₁ : 0 < own.count s := List.count_pos_iff.2 hs₁
      have h₂ : 0 < saSecrets.count s := List.count_pos_iff.2 hs₂
      omega

/-- C1: for both readers, when `ListImagePullSecretsByPodSpec(spec, ns)`
succeeds, its result is the result of
`ListByLocalObjectReferences(spec.ImagePullSecrets, ns)` followed by the result
of `ListByServiceAccount` for the effective ServiceAccount name; its length is
the number of references of the Pod plus the number of references of the
ServiceAccount, and a Secret whose name is referenced by both occurs at least
twice. -/
theorem C1_listImagePullSecretsByPodSpec (spec : PodSpec) (ns : String) (res : List Secret) :
    (∀ r : reader, (r.ListImagePullSecretsByPodSpec spec ns).1 = .ok res →
      ListImagePullSecretsByPodSpecContract r.clientset.SecretsGet
        r.clientset.ServiceAccountsGet r.ListByLocalObjectReferences r.ListByServiceAccount
        spec ns res) ∧
    (∀ r : crReader, (r.ListImagePullSecretsByPodSpec spec ns).1 = .ok res →
      ListImagePullSecretsByPodSpecContract
        (fun ns name => r.client.GetSecret { Name := name, Namespace := ns })
        (fun ns name => r.client.GetServiceAccount { Name := name, Namespace := ns })
        r.ListByLocalObjectReferences r.ListByServiceAccount spec ns res) := by
  refine ⟨fun r h => reader.listImagePullSecretsByPodSpec_contract r spec ns res h, fun r h => ?_⟩
  rw [crReader.listImagePullSecretsByPodSpec_eq] at h
  have hc := reader.listImagePullSecretsByPodSpec_contract _ spec ns res h
  have hlist : reader.ListByLocalObjectReferences { clientset := r.client.asClientset }
      = r.ListByLocalObjectReferences := by
    funext refs ns'
    exact (crReader.listByLocalObjectReferences_eq r refs ns').symm
  have hlistSA : reader.ListByServiceAccount { clientset := r.client.asClientset }
      = r.ListByServiceAccount := by
    funext name ns'
    exact (crReader.listByServiceAccount_eq r name ns').symm
  rw [hlist, hlistSA] at hc
  exact hc

theorem reader.listByLocalObjectReferences_calls (r : reader)
    (refs : List LocalObjectReference) (ns : String) :
    ∀ c ∈ (r.ListByLocalObjectReferences refs ns).2, ∃ n, c = ApiCall.getSecret ns n := by
  intro c hc
  unfold reader.ListByLocalObjectReferences at hc
  rcases fetch_cases (r.clientset.SecretsGet ns) refs with
    ⟨got, hgot⟩ | ⟨pre, got, ref, post, e, hrefs, hpre, he⟩
  · rw [reader.listLoop_ok r ns refs got [] [] hgot] at hc
    simp only [secretCalls, List.nil_append, List.mem_map] at hc
    obtain ⟨ref, _, rfl⟩ := hc
    exact ⟨_, rfl⟩
  · subst hrefs
    rw [reader.listLoop_error r ns pre got ref post e [] [] hpre he] at hc
    simp only [secretCalls, List.nil_append, List.mem_map] at hc
    obtain ⟨ref, _, rfl⟩ := hc
    exact ⟨_, rfl⟩

theorem reader.listByServiceAccount_calls (r : reader) (name ns : String) :
    ∀ ns' name', ApiCall.getServiceAccount ns' name' ∈ (r.ListByServiceAccount name ns).2 →
      ns' = ns ∧ name' = name := by
  intro ns' name' hc
  unfold reader.ListByServiceAccount at hc
  cases hget : r.clientset.ServiceAccountsGet ns name with
  | error e =>
    rw [hget] at hc
    simpa using hc
  | ok sa =>
    rw [hget] at hc
    simp only [List.mem_cons, ApiCall.getServiceAccount.injEq] at hc
    rcases hc with hc | hc
    · exact hc
    · obtain ⟨n, hn⟩ := reader.listByLocalObjectReferences_calls r _ _ _ hc
      cases hn

theorem reader.default_serviceAccount (r : reader) (spec : PodSpec) (ns : String)
    (h : spec.ServiceAccountName = "") :
    r.ListImagePullSecretsByPodSpec spec ns
        = r.ListImagePullSecretsByPodSpec { spec with ServiceAccountName := "default" } ns ∧
    ∀ ns' name, ApiCall.getServiceAccount ns' name ∈ (r.ListImagePullSecretsByPodSpec spec ns).2 →
      ns' = ns ∧ name = "default" := by
  constructor
  · simp [reader.ListImagePullSecretsByPodSpec, h, serviceAccountDefault]
  · intro ns' name hc
    unfold reader.ListImagePullSecretsByPodSpec at hc
    simp only [h, serviceAccountDefault, if_true] at hc
    have hown := reader.listByLocalObjectReferences_calls r spec.ImagePullSecrets ns
    rcases hl : r.ListByLocalObjectReferences spec.ImagePullSecrets ns with ⟨_ | own, calls⟩
    · rw [hl] at hc hown
      obtain ⟨n, hn⟩ := hown _ hc
      cases hn
    · rw [hl] at hc hown
      have hsa := reader.listByServiceAccount_calls r "default" ns ns' name
      rcases hs : r.ListByServiceAccount "default" ns with ⟨_ | saSecrets, calls'⟩ <;>
        rw [hs] at hc hsa <;>
        rcases List.mem_append.1 hc with hc | hc
      · obtain ⟨n, hn⟩ := hown _ hc
        cases hn
      · exact hsa hc
      · obtain ⟨n, hn⟩ := hown _ hc
        cases hn
      · exact hsa hc

theorem reader.uses_default_serviceAccount (r : reader) (spec : PodSpec) (ns : String)
    (h : spec.ServiceAccountName = "") :
    UsesDefaultServiceAccount r.clientset.ServiceAccountsGet r.ListByLocalObjectReferences
      spec ns (r.ListImagePullSecretsByPodSpec spec ns) := by
  intro own hown
  unfold reader.ListImagePullSecretsByPodSpec
  simp only [h, serviceAccountDefault, if_true]
  rcases hl : r.ListByLocalObjectReferences spec.ImagePullSecrets ns with ⟨res, calls⟩
  rw [hl] at hown
  simp only at hown
  subst hown
  simp only [reader.ListByServiceAccount]
  cases hget : r.clientset.ServiceAccountsGet ns "default" with
  | error e =>
    refine ⟨by simp, ?_, ?_⟩
    · intro e' he'
      cases he'
      rfl
    · intro sa hsa
      cases hsa
  | ok sa =>
    rcases hl₂ : r.ListByLocalObjectReferences sa.ImagePullSecrets ns with ⟨res₂, calls₂⟩
    simp only [hl₂]
    refine ⟨?_, ?_, ?_⟩
    · cases res₂ <;> simp
    · intro e he
      cases he
    · intro sa' hsa'
      cases hsa'
      rw [hl₂]
      constructor
      · intro saSecrets hs
        simp only at hs
        subst hs
        rfl
      · intro err hs
        simp only at hs
        subst hs
        rfl

/-- C2: for both readers, a PodSpec with an empty `ServiceAccountName` gives the
same outcome of `ListImagePullSecretsByPodSpec` (Secrets or error, and API
requests) as the PodSpec that differs only in naming the ServiceAccount
`default`; the only ServiceAccount it requests is `default` in `ns`; and once
the Secrets of the Pod are fetched it does request the ServiceAccount `default`
of `ns` and uses the answer: a failed fetch is the error returned, and the
Secrets of the references of the ServiceAccount found follow the Secrets of the
Pod in the result. -/
theorem C2_defaultServiceAccount (spec : PodSpec) (ns : String)
    (h : spec.ServiceAccountName = "") :
    (∀ r : reader,
      r.ListImagePullSecretsByPodSpec spec ns
          = r.ListImagePullSecretsByPodSpec { spec with ServiceAccountName := "default" } ns ∧
      (∀ ns' name,
        ApiCall.getServiceAccount ns' name ∈ (r.ListImagePullSecretsByPodSpec spec ns).2 →
        ns' = ns ∧ name = "default") ∧
      UsesDefaultServiceAccount r.clientset.ServiceAccountsGet r.ListByLocalObjectReferences
        spec ns (r.ListImagePullSecretsByPodSpec spec ns)) ∧
    (∀ r : crReader,
      r.ListImagePullSecretsByPodSpec spec ns
          = r.ListImagePullSecretsByPodSpec { spec with ServiceAccountName := "default" } ns ∧
      (∀ ns' name,
        ApiCall.getServiceAccount ns' name ∈ (r.ListImagePullSecretsByPodSpec spec ns).2 →
        ns' = ns ∧ name = "default") ∧
      UsesDefaultServiceAccount
        (fun ns name => r.client.GetServiceAccount { Name := name, Namespace := ns })
        r.ListByLocalObjectReferences spec ns (r.ListImagePullSecretsByPodSpec spec ns)) := by
  refine ⟨fun r => ⟨(reader.default_serviceAccount r spec ns h).1,
    (reader.default_serviceAccount r spec ns h).2,
    reader.uses_default_serviceAccount r spec ns h⟩, fun r => ?_⟩
  have hlist : reader.ListByLocalObjectReferences { clientset := r.client.asClientset }
      = r.ListByLocalObjectReferences := by
    funext refs ns'
    exact (crReader.listByLocalObjectReferences_eq r refs ns').symm
  have huses := reader.uses_default_serviceAccount { clientset := r.client.asClientset } spec ns h
  rw [hlist] at huses
  rw [crReader.listImagePullSecretsByPodSpec_eq, crReader.listImagePullSecretsByPodSpec_eq]
  exact ⟨(reader.default_serviceAccount _ spec ns h).1,
    (reader.default_serviceAccount _ spec ns h).2, huses⟩

/-- C10: a clientset and a controller-runtime client that answer every Secret
lookup and every ServiceAccount lookup alike give `reader` and `crReader` the
same outcome (the same Secrets or the same error, and the same API requests)
for each of the three methods on every input. -/
theorem C10_readers_equivalent (cs : Clientset) (cl : Client)
    (hsec : ∀ ns name, cs.SecretsGet ns name = cl.GetSecret { Name := name, Namespace := ns })
    (hsa : ∀ ns name,
      cs.ServiceAccountsGet ns name = cl.GetServiceAccount { Name := name, Namespace := ns }) :
    (∀ refs ns,
      reader.ListByLocalObjectReferences { clientset := cs } refs ns
        = crReader.ListByLocalObjectReferences { client := cl } refs ns) ∧
    (∀ name ns,
      reader.ListByServiceAccount { clientset := cs } name ns
        = crReader.ListByServiceAccount { client := cl } name ns) ∧
    (∀ spec ns,
      reader.ListImagePullSecretsByPodSpec { clientset := cs } spec ns
        = crReader.ListImagePullSecretsByPodSpec { client := cl } spec ns) := by
  have hcs : cl.asClientset = cs := by
    cases cs with
    | mk f g =>
      simp only [Client.asClientset, Clientset.mk.injEq]
      exact ⟨funext fun ns => funext fun name => (hsec ns name).symm,
        funext fun ns => funext fun name => (hsa ns name).symm⟩
  refine ⟨fun refs ns => ?_, fun name ns => ?_, fun spec ns => ?_⟩
  · rw [crReader.listByLocalObjectReferences_eq, hcs]
  · rw [crReader.listByServiceAccount_eq, hcs]
  · rw [crReader.listImagePullSecretsByPodSpec_eq, hcs]

/-! ## Lemmas on Go maps -/

theorem GoMap.index_store {V : Type} (m : GoMap V) (k : String) (v : V) (k' : String) :
    (m.store k v).index k' = if k = k' then some v else m.index k' := by
  induction m with
  | nil => simp [GoMap.store, GoMap.index]
  | cons e rest ih =>
    obtain ⟨k₀, v₀⟩ := e
    by_cases h₀ : k₀ = k
    · subst h₀
      simp only [GoMap.store, GoMap.index, if_true]
      split <;> rfl
    · simp only [GoMap.store, GoMap.index, h₀, if_false, ih]
      by_cases h₁ : k₀ = k'
      · subst h₁
        simp [Ne.symm h₀]
      · simp [h₁]

theorem GoMap.mem_keys_iff {V : Type} (m : GoMap V) (k : String) :
    k ∈ m.keys ↔ ∃ v, m.index k = some v := by
  induction m with
  | nil => simp [GoMap.keys, GoMap.index]
  | cons e rest ih =>
    obtain ⟨k₀, v₀⟩ := e
    simp only [GoMap.keys, List.map_cons, List.mem_cons, GoMap.index] at ih ⊢
    by_cases h₀ : k₀ = k
    · subst h₀
      simp
    · simp only [h₀, if_false, ← ih]
      constructor
      · rintro (h | h)
        · exact absurd h.symm h₀
        · exact h
      · exact Or.inr

theorem GoMap.index_eq_none_iff {V : Type} (m : GoMap V) (k : String) :
    m.index k = none ↔ k ∉ m.keys := by
  rw [GoMap.mem_keys_iff]
  cases m.index k <;> simp

theorem GoMap.keys_store {V : Type} (m : GoMap V) (k : String) (v : V) :
    (m.store k v).keys = if k ∈ m.keys then m.keys else m.keys ++ [k] := by
  induction m with
  | nil => simp [GoMap.store, GoMap.keys]
  | cons e rest ih =>
    obtain ⟨k₀, v₀⟩ := e
    simp only [GoMap.keys, List.map_cons, List.mem_cons] at ih ⊢
    by_cases h₀ : k₀ = k
    · subst h₀
      simp [GoMap.store]
    · simp only [GoMap.store, h₀, if_false, List.map_cons, ih, Ne.symm h₀, false_or]
      split <;> simp

theorem GoMap.wf_store {V : Type} (m : GoMap V) (k : String) (v : V) (h : m.WF) :
    (m.store k v).WF := by
  unfold GoMap.WF at h ⊢
  rw [GoMap.keys_store]
  split
  · exact h
  · rename_i hk
    exact List.Nodup.append h (List.nodup_singleton k) (by simpa using hk)

theorem GoMap.index_of_mem {V : Type} (m : GoMap V) (h : m.WF) (k : String) (v : V) :
    m.index k = some v ↔ (k, v) ∈ m := by
  induction m with
  | nil => simp [GoMap.index]
  | cons e rest ih =>
    obtain ⟨k₀, v₀⟩ := e
    have hwf : GoMap.WF rest := (List.nodup_cons.1 h).2
    have hk₀ : k₀ ∉ GoMap.keys rest := (List.nodup_cons.1 h).1
    simp only [GoMap.index, List.mem_cons, Prod.mk.injEq]
    by_cases h₀ : k₀ = k
    · subst h₀
      simp only [if_true, Option.some.injEq, true_and]
      constructor
      · intro hv
        exact Or.inl hv.symm
      · rintro (hv | hv)
        · exact hv.symm
        · exact absurd (List.mem_map.2 ⟨_, hv, rfl⟩) hk₀
    · simp only [h₀, if_false, ih hwf]
      constructor
      · exact Or.inr
      · rintro (⟨hk, _⟩ | hv)
        · exact absurd hk.symm h₀
        · exact hv

/-! ## Lemmas on `MapDockerRegistryServersToAuths` -/

theorem MapDockerRegistryServersToAuths.authsLoop_index (D : Docker) (h : String) (a : Auth) :
    ∀ (cfg acc out : GoMap Auth),
      MapDockerRegistryServersToAuths.authsLoop D cfg acc = .ok out →
      out.index h = some a →
      (∃ server, (server, a) ∈ cfg ∧ D.GetHostFromServer server = .ok h) ∨
      (acc.index h = some a ∧ ∀ e ∈ cfg, D.GetHostFromServer e.1 ≠ .ok h) := by
  intro cfg
  induction cfg with
  | nil =>
    intro acc out hout hidx
    simp only [MapDockerRegistryServersToAuths.authsLoop, Except.ok.injEq] at hout
    subst hout
    exact Or.inr ⟨hidx, by simp⟩
  | cons e rest ih =>
    obtain ⟨server, auth⟩ := e
    intro acc out hout hidx
    simp only [MapDockerRegistryServersToAuths.authsLoop] at hout
    cases hhost : D.GetHostFromServer server with
    | error err =>
      rw [hhost] at hout
      cases hout
    | ok host =>
      rw [hhost] at hout
      rcases ih _ _ hout hidx with ⟨server', hmem, hh⟩ | ⟨hacc, hnone⟩
      · exact Or.inl ⟨server', List.mem_cons_of_mem _ hmem, hh⟩
      · rw [GoMap.index_store] at hacc
        by_cases hk : host = h
        · subst hk
          simp only [if_true, Option.some.injEq] at hacc
          subst hacc
          exact Or.inl ⟨server, List.mem_cons_self _ _, hhost⟩
        · simp only [hk, if_false] at hacc
          refine Or.inr ⟨hacc, ?_⟩
          intro e he
          rcases List.mem_cons.1 he with rfl | he
          · simpa [hhost] using hk
          · exact hnone e he

theorem MapDockerRegistryServersToAuths.secretsLoop_index (D : Docker) (h : String) (a : Auth) :
    ∀ (secrets : List Secret) (acc out : GoMap Auth),
      MapDockerRegistryServersToAuths.secretsLoop D secrets acc = .ok out →
      out.index h = some a →
      (∃ pre s post cfg server, secrets = pre ++ s :: post ∧
        D.Read (dockerConfigJson s) = .ok cfg ∧ (server, a) ∈ cfg.Auths ∧
        D.GetHostFromServer server = .ok h ∧
        ∀ s' ∈ post, ∀ cfg', D.Read (dockerConfigJson s') = .ok cfg' →
          ∀ e ∈ cfg'.Auths, D.GetHostFromServer e.1 ≠ .ok h) ∨
      (acc.index h = some a ∧
        ∀ s' ∈ secrets, ∀ cfg', D.Read (dockerConfigJson s') = .ok cfg' →
          ∀ e ∈ cfg'.Auths, D.GetHostFromServer e.1 ≠ .ok h) := by
  intro secrets
  induction secrets with
  | nil =>
    intro acc out hout hidx
    simp only [MapDockerRegistryServersToAuths.secretsLoop, Except.ok.injEq] at hout
    subst hout
    exact Or.inr ⟨hidx, by simp⟩
  | cons s rest ih =>
    intro acc out hout hidx
    simp only [MapDockerRegistryServersToAuths.secretsLoop] at hout
    cases hread : D.Read (dockerConfigJson s) with
    | error err =>
      rw [hread] at hout
      cases hout
    | ok cfg =>
      simp only [hread] at hout
      cases hloop : MapDockerRegistryServersToAuths.authsLoop D cfg.Auths acc with
      | error err =>
        rw [hloop] at hout
        cases hout
      | ok acc' =>
        rw [hloop] at hout
        rcases ih _ _ hout hidx with
          ⟨pre, s₀, post, cfg₀, server, hsplit, hread₀, hmem, hh, hlast⟩ | ⟨hacc, hnone⟩
        · exact Or.inl ⟨s :: pre, s₀, post, cfg₀, server, by simp [hsplit], hread₀, hmem, hh,
            hlast⟩
        · rcases MapDockerRegistryServersToAuths.authsLoop_index D h a _ _ _ hloop hacc with
            ⟨server, hmem, hh⟩ | ⟨hacc', hnone'⟩
          · exact Or.inl ⟨[], s, rest, cfg, server, rfl, hread, hmem, hh, hnone⟩
          · refine Or.inr ⟨hacc', ?_⟩
            intro s' hs' cfg' hread' e he
            rcases List.mem_cons.1 hs' with rfl | hs'
            · rw [hread] at hread'
              cases hread'
              exact hnone' e he
            · exact hnone s' hs' cfg' hread' e he

/-- C8: when `MapDockerRegistryServersToAuths` succeeds and `h` is a key of its
result, the value at `h` is the credential that the last Secret, in list order,
with a server key canonicalising to `h` gives for `h`: no later Secret has such
a server key, and (no Secret having two server keys that canonicalise to `h`)
the value is the credential of the one entry of that Secret whose server
canonicalises to `h`. -/
theorem C8_later_secrets_overwrite (D : Docker) (secrets : List Secret) (auths : GoMap Auth)
    (h : String) (a : Auth)
    (hok : MapDockerRegistryServersToAuths D secrets = .ok auths)
    (huniq : ∀ s ∈ secrets, ∀ cfg, D.Read (dockerConfigJson s) = .ok cfg →
      ∀ e₁ ∈ cfg.Auths, ∀ e₂ ∈ cfg.Auths,
        D.GetHostFromServer e₁.1 = .ok h → D.GetHostFromServer e₂.1 = .ok h → e₁ = e₂)
    (hidx : auths.index h = some a) :
    ∃ pre s post cfg server, secrets = pre ++ s :: post ∧
      D.Read (dockerConfigJson s) = .ok cfg ∧
      (server, a) ∈ cfg.Auths ∧ D.GetHostFromServer server = .ok h ∧
      (∀ e ∈ cfg.Auths, D.GetHostFromServer e.1 = .ok h → e = (server, a)) ∧
      ∀ s' ∈ post, ∀ cfg', D.Read (dockerConfigJson s') = .ok cfg' →
        ∀ e ∈ cfg'.Auths, D.GetHostFromServer e.1 ≠ .ok h := by
  rcases MapDockerRegistryServersToAuths.secretsLoop_index D h a secrets [] auths hok hidx with
    ⟨pre, s, post, cfg, server, hsplit, hread, hmem, hh, hlast⟩ | ⟨hacc, _⟩
  · refine ⟨pre, s, post, cfg, server, hsplit, hread, hmem, hh, ?_, hlast⟩
    intro e he heh
    exact huniq s (by simp [hsplit]) cfg hread e he (server, a) hmem heh hh
  · simp [GoMap.index] at hacc

theorem MapDockerRegistryServersToAuths.authsLoop_error_iff (D : Docker) :
    ∀ (cfg acc : GoMap Auth),
      (∃ e, MapDockerRegistryServersToAuths.authsLoop D cfg acc = .error e) ↔
      ∃ server ∈ cfg.keys, ∃ e, D.GetHostFromServer server = .error e := by
  intro cfg
  induction cfg with
  | nil =>
    intro acc
    simp [MapDockerRegistryServersToAuths.authsLoop, GoMap.keys]
  | cons e rest ih =>
    obtain ⟨server, auth⟩ := e
    intro acc
    simp only [MapDockerRegistryServersToAuths.authsLoop, GoMap.keys, List.map_cons,
      List.mem_cons, exists_eq_or_imp]
    cases hhost : D.GetHostFromServer server with
    | error err => simp
    | ok host =>
      simp only [ih, GoMap.keys]
      simp

theorem MapDockerRegistryServersToAuths.secretsLoop_error_iff (D : Docker) :
    ∀ (secrets : List Secret) (acc : GoMap Auth),
      (∃ e, MapDockerRegistryServersToAuths.secretsLoop D secrets acc = .error e) ↔
      ∃ s ∈ secrets, SecretFails D s := by
  intro secrets
  induction secrets with
  | nil =>
    intro acc
    simp [MapDockerRegistryServersToAuths.secretsLoop]
  | cons s rest ih =>
    intro acc
    simp only [MapDockerRegistryServersToAuths.secretsLoop, List.mem_cons, exists_eq_or_imp]
    cases hread : D.Read (dockerConfigJson s) with
    | error err => simp [SecretFails, hread]
    | ok cfg =>
      have hauths := MapDockerRegistryServersToAuths.authsLoop_error_iff D cfg.Auths acc
      cases hloop : MapDockerRegistryServersToAuths.authsLoop D cfg.Auths acc with
      | error err =>
        have hex := hauths.1 ⟨err, hloop⟩
        simp only [hloop]
        exact ⟨fun _ => Or.inl (Or.inr ⟨cfg, hread, hex⟩), fun _ => ⟨err, rfl⟩⟩
      | ok acc' =>
        simp only [hloop, ih]
        constructor
        · exact Or.inr
        · rintro (hs | hrest)
          · rcases hs with ⟨e, he⟩ | ⟨cfg', hread', hex⟩
            · rw [hread] at he
              cases he
            · rw [hread] at hread'
              cases hread'
              obtain ⟨e, he⟩ := hauths.2 hex
              rw [hloop] at he
              cases he
          · exact hrest

/-- C9: `MapDockerRegistryServersToAuths` fails exactly when, for one of the
Secrets, `Read` fails on its `.dockerconfigjson` bytes or `GetHostFromServer`
fails on a server key of its parsed configuration, valid Secrets before it
notwithstanding; a failure carries no map; on success every key of the result
is the `GetHostFromServer` value of a server key of one of the Secrets; and
`MapContainerNamesToDockerAuths` fails, with the same error, whenever
`MapDockerRegistryServersToAuths` fails on the same Secrets. -/
theorem C9_map_servers_failure (D : Docker) (secrets : List Secret) :
    ((∃ e, MapDockerRegistryServersToAuths D secrets = .error e) ↔
      ∃ s ∈ secrets, SecretFails D s) ∧
    (∀ pre s post, secrets = pre ++ s :: post → SecretFails D s →
      ∃ e, MapDockerRegistryServersToAuths D secrets = .error e ∧
        ∀ auths, MapDockerRegistryServersToAuths D secrets ≠ .ok auths) ∧
    (∀ auths, MapDockerRegistryServersToAuths D secrets = .ok auths →
      ∀ k ∈ auths.keys, ∃ s ∈ secrets, ∃ cfg, D.Read (dockerConfigJson s) = .ok cfg ∧
        ∃ server ∈ cfg.Auths.keys, D.GetHostFromServer server = .ok k) ∧
    (∀ e, MapDockerRegistryServersToAuths D secrets = .error e →
      ∀ images, MapContainerNamesToDockerAuths D images secrets = .error e) := by
  have hiff := MapDockerRegistryServersToAuths.secretsLoop_error_iff D secrets []
  refine ⟨hiff, ?_, ?_, ?_⟩
  · intro pre s post hsplit hfail
    obtain ⟨e, he⟩ := hiff.2 ⟨s, by simp [hsplit], hfail⟩
    refine ⟨e, he, ?_⟩
    intro auths hok
    unfold MapDockerRegistryServersToAuths at hok
    rw [he] at hok
    cases hok
  · intro auths hok k hk
    obtain ⟨a, ha⟩ := (GoMap.mem_keys_iff auths k).1 hk
    rcases MapDockerRegistryServersToAuths.secretsLoop_index D k a secrets [] auths hok ha with
      ⟨pre, s, post, cfg, server, hsplit, hread, hmem, hh, _⟩ | ⟨hacc, _⟩
    · exact ⟨s, by simp [hsplit], cfg, hread, server, List.mem_map.2 ⟨_, hmem, rfl⟩, hh⟩
    · simp [GoMap.index] at hacc
  · intro e he images
    simp only [MapContainerNamesToDockerAuths, he]

/-! ## Lemmas on the keys of the aggregated data -/

theorem usernameKey_inj (c c' : String) : c ++ ".username" = c' ++ ".username" ↔ c = c' := by
  constructor
  · intro h
    have h' := congrArg String.data h
    simp only [String.data_append] at h'
    exact String.ext (List.append_cancel_right h')
  · rintro rfl
    rfl

theorem passwordKey_inj (c c' : String) : c ++ ".password" = c' ++ ".password" ↔ c = c' := by
  constructor
  · intro h
    have h' := congrArg String.data h
    simp only [String.data_append] at h'
    exact String.ext (List.append_cancel_right h')
  · rintro rfl
    rfl

theorem usernameKey_ne_passwordKey (c c' : String) : c ++ ".username" ≠ c' ++ ".password" := by
  intro h
  have h' := congrArg String.data h
  simp only [String.data_append] at h'
  have := (List.append_inj' h' (by decide)).2
  exact absurd this (by decide)

theorem AggregatedEntry.unique {images : ContainerImages} {credentials : GoMap Auth}
    {k : String} {v v' : Bytes} (h : AggregatedEntry images credentials k v)
    (h' : AggregatedEntry images credentials k v') : v = v' := by
  obtain ⟨c, a, _, ha, hk⟩ := h
  obtain ⟨c', a', _, ha', hk'⟩ := h'
  rcases hk with ⟨hk, rfl⟩ | ⟨hk, rfl⟩ <;> rcases hk' with ⟨hk', rfl⟩ | ⟨hk', rfl⟩
  · have hc : c = c' := (usernameKey_inj c c').1 (hk ▸ hk')
    subst hc
    rw [ha] at ha'
    cases ha'
    rfl
  · exact absurd (hk ▸ hk') (usernameKey_ne_passwordKey c c')
  · exact absurd (hk' ▸ hk) (usernameKey_ne_passwordKey c' c)
  · have hc : c = c' := (passwordKey_inj c c').1 (hk ▸ hk')
    subst hc
    rw [ha] at ha'
    cases ha'
    rfl

theorem AggregatedEntry.of_tail {c₀ ref : String} {rest : ContainerImages}
    {credentials : GoMap Auth} {k : String} {v : Bytes}
    (h : AggregatedEntry rest credentials k v) :
    AggregatedEntry ((c₀, ref) :: rest) credentials k v := by
  obtain ⟨c, a, hc, ha, hk⟩ := h
  exact ⟨c, a, List.mem_cons_of_mem _ hc, ha, hk⟩

theorem AggregatedEntry.cons_iff {c₀ ref : String} {rest : ContainerImages}
    {credentials : GoMap Auth} {k : String} {v : Bytes} :
    AggregatedEntry ((c₀, ref) :: rest) credentials k v ↔
      (∃ a, credentials.index c₀ = some a ∧
        ((k = c₀ ++ ".username" ∧ v = bytesOfString a.Username) ∨
         (k = c₀ ++ ".password" ∧ v = bytesOfString a.Password))) ∨
      AggregatedEntry rest credentials k v := by
  constructor
  · rintro ⟨c, a, hc, ha, hk⟩
    rcases List.mem_cons.1 hc with rfl | hc
    · exact Or.inl ⟨a, ha, hk⟩
    · exact Or.inr ⟨c, a, hc, ha, hk⟩
  · rintro (⟨a, ha, hk⟩ | h)
    · exact ⟨c₀, a, List.mem_cons_self _ _, ha, hk⟩
    · exact h.of_tail

theorem AggregateImagePullSecretsData.loop_index (credentials : GoMap Auth) (k : String)
    (v : Bytes) :
    ∀ (images : ContainerImages) (acc : GoMap Bytes),
      (AggregateImagePullSecretsData.loop credentials images acc).index k = some v ↔
        AggregatedEntry images credentials k v ∨
        (acc.index k = some v ∧ ¬ ∃ v', AggregatedEntry images credentials k v') := by
  intro images
  induction images with
  | nil =>
    intro acc
    simp [AggregateImagePullSecretsData.loop, AggregatedEntry, GoMap.keys]
  | cons e rest ih =>
    obtain ⟨c₀, ref⟩ := e
    intro acc
    simp only [AggregateImagePullSecretsData.loop]
    cases hc₀ : credentials.index c₀ with
    | none =>
      simp only [ih, AggregatedEntry.cons_iff, hc₀]
      simp
    | some a₀ =>
      simp only [ih, GoMap.index_store]
      constructor
      · rintro (h | ⟨h, hno⟩)
        · exact Or.inl h.of_tail
        · by_cases hp : c₀ ++ ".password" = k
          · simp only [hp, if_true, Option.some.injEq] at h
            exact Or.inl ⟨c₀, a₀, List.mem_cons_self _ _, hc₀, Or.inr ⟨hp.symm, h.symm⟩⟩
          · by_cases hu : c₀ ++ ".username" = k
            · simp only [hp, hu, if_true, if_false, Option.some.injEq] at h
              exact Or.inl ⟨c₀, a₀, List.mem_cons_self _ _, hc₀, Or.inl ⟨hu.symm, h.symm⟩⟩
            · simp only [hp, hu, if_false] at h
              refine Or.inr ⟨h, ?_⟩
              rintro ⟨v', hv'⟩
              rcases AggregatedEntry.cons_iff.1 hv' with ⟨a, _, hk⟩ | hv'
              · rcases hk with ⟨hk, _⟩ | ⟨hk, _⟩
                · exact hu hk.symm
                · exact hp hk.symm
              · exact hno ⟨v', hv'⟩
      · rintro (h | ⟨h, hno⟩)
        · by_cases hrest : ∃ v', AggregatedEntry rest credentials k v'
          · obtain ⟨v', hv'⟩ := hrest
            have : v = v' := h.unique hv'.of_tail
            subst this
            exact Or.inl hv'
          · refine Or.inr ⟨?_, hrest⟩
            rcases AggregatedEntry.cons_iff.1 h with ⟨a, ha, hk⟩ | h
            · rw [hc₀] at ha
              cases ha
              rcases hk with ⟨rfl, rfl⟩ | ⟨rfl, rfl⟩
              · simp [(usernameKey_ne_passwordKey c₀ c₀).symm]
              · simp
            · exact absurd ⟨v, h⟩ hrest
        · have hp : c₀ ++ ".password" ≠ k := fun hp =>
            hno ⟨_, c₀, a₀, List.mem_cons_self _ _, hc₀, Or.inr ⟨hp.symm, rfl⟩⟩
          have hu : c₀ ++ ".username" ≠ k := fun hu =>
            hno ⟨_, c₀, a₀, List.mem_cons_self _ _, hc₀, Or.inl ⟨hu.symm, rfl⟩⟩
          refine Or.inr ⟨by simp [hp, hu, h], ?_⟩
          rintro ⟨v', hv'⟩
          exact hno ⟨v', hv'.of_tail⟩

theorem AggregateImagePullSecretsData.loop_wf (credentials : GoMap Auth) :
    ∀ (images : ContainerImages) (acc : GoMap Bytes), acc.WF →
      (AggregateImagePullSecretsData.loop credentials images acc).WF := by
  intro images
  induction images with
  | nil => intro acc h; exact h
  | cons e rest ih =>
    obtain ⟨c₀, ref⟩ := e
    intro acc h
    simp only [AggregateImagePullSecretsData.loop]
    cases credentials.index c₀ with
    | none => exact ih acc h
    | some a₀ => exact ih _ (GoMap.wf_store _ _ _ (GoMap.wf_store _ _ _ h))

theorem GoMap.length_store_new {V : Type} (m : GoMap V) (k : String) (v : V)
    (h : k ∉ m.keys) : (m.store k v).length = m.length + 1 := by
  have := congrArg List.length (GoMap.keys_store m k v)
  rw [if_neg h] at this
  simpa [GoMap.keys] using this

theorem AggregateImagePullSecretsData.loop_length (credentials : GoMap Auth) :
    ∀ (images : ContainerImages) (acc : GoMap Bytes), images.WF →
      (∀ c ∈ images.keys, c ++ ".username" ∉ acc.keys ∧ c ++ ".password" ∉ acc.keys) →
      (AggregateImagePullSecretsData.loop credentials images acc).length
        = acc.length + 2 * (matchedContainers images credentials).length := by
  intro images
  induction images with
  | nil =>
    intro acc _ _
    simp [AggregateImagePullSecretsData.loop, matchedContainers]
  | cons e rest ih =>
    obtain ⟨c₀, ref⟩ := e
    intro acc hwf hfresh
    have hwf' : GoMap.WF rest := (List.nodup_cons.1 hwf).2
    have hc₀ : c₀ ∉ GoMap.keys rest := (List.nodup_cons.1 hwf).1
    have hfresh' : ∀ c ∈ GoMap.keys rest,
        c ++ ".username" ∉ acc.keys ∧ c ++ ".password" ∉ acc.keys :=
      fun c hc => hfresh c (List.mem_cons_of_mem _ hc)
    have hfresh₀ := hfresh c₀ (List.mem_cons_self _ _)
    simp only [AggregateImagePullSecretsData.loop, matchedContainers, List.filter_cons]
    cases hidx : credentials.index c₀ with
    | none =>
      simp only [Option.isSome_none, Bool.false_eq_true, if_false]
      exact ih acc hwf' hfresh'
    | some a₀ =>
      simp only [Option.isSome_some, if_true, List.length_cons]
      have hp : c₀ ++ ".password" ∉
          GoMap.keys (acc.store (c₀ ++ ".username") (bytesOfString a₀.Username)) := by
        rw [GoMap.keys_store]
        simp [hfresh₀.1, hfresh₀.2, (usernameKey_ne_passwordKey c₀ c₀).symm]
      rw [ih _ hwf', GoMap.length_store_new _ _ _ hp, GoMap.length_store_new _ _ _ hfresh₀.1]
      · simp only [matchedContainers]
        omega
      · intro c hc
        have hne : c ≠ c₀ := fun h => hc₀ (h ▸ hc)
        rw [GoMap.keys_store, GoMap.keys_store]
        simp [hfresh₀.1, hfresh₀.2, (hfresh' c hc).1, (hfresh' c hc).2, usernameKey_inj,
          passwordKey_inj, hne, usernameKey_ne_passwordKey,
          (usernameKey_ne_passwordKey c₀ c).symm, (usernameKey_ne_passwordKey c₀ c₀).symm]

/-- C5: `AggregateImagePullSecretsData(images, credentials)` holds, for every
container name `c` that is a key of both maps, the bytes of the user name under
`c.username` and the bytes of the password under `c.password`; every key of the
result is one of these; two different container names share none of their keys;
the result has twice as many entries as there are matched containers; and the
images `app: registry.example.com/app:1.0` with the credential `u`/`p` for `app`
give `app.username: u`, `app.password: p` (the byte of `u` is 117, of `p` 112). -/
theorem C5_aggregate_two_entries_per_container :
    (∀ (images : ContainerImages) (credentials : GoMap Auth),
      (∀ c a, c ∈ images.keys → credentials.index c = some a →
        (AggregateImagePullSecretsData images credentials).index (c ++ ".username")
            = some (bytesOfString a.Username) ∧
        (AggregateImagePullSecretsData images credentials).index (c ++ ".password")
            = some (bytesOfString a.Password)) ∧
      (∀ k ∈ (AggregateImagePullSecretsData images credentials).keys,
        ∃ c a, c ∈ images.keys ∧ credentials.index c = some a ∧
          (k = c ++ ".username" ∨ k = c ++ ".password")) ∧
      (AggregateImagePullSecretsData images credentials).WF ∧
      (images.WF →
        (AggregateImagePullSecretsData images credentials).length
          = 2 * (matchedContainers images credentials).length)) ∧
    (∀ c c' : String, c ≠ c' →
      c ++ ".username" ≠ c' ++ ".username" ∧ c ++ ".username" ≠ c' ++ ".password" ∧
      c ++ ".password" ≠ c' ++ ".username" ∧ c ++ ".password" ≠ c' ++ ".password") ∧
    AggregateImagePullSecretsData [("app", "registry.example.com/app:1.0")]
        [("app", { Auth := "dTpw", Username := "u", Password := "p" })]
      = [("app.username", [117]), ("app.password", [112])] := by
  refine ⟨fun images credentials => ⟨?_, ?_, ?_, ?_⟩, ?_, ?_⟩
  · intro c a hc ha
    constructor
    · exact (AggregateImagePullSecretsData.loop_index credentials _ _ images []).2
        (Or.inl ⟨c, a, hc, ha, Or.inl ⟨rfl, rfl⟩⟩)
    · exact (AggregateImagePullSecretsData.loop_index credentials _ _ images []).2
        (Or.inl ⟨c, a, hc, ha, Or.inr ⟨rfl, rfl⟩⟩)
  · intro k hk
    obtain ⟨v, hv⟩ := (GoMap.mem_keys_iff _ k).1 hk
    rcases (AggregateImagePullSecretsData.loop_index credentials k v images []).1 hv with
      ⟨c, a, hc, ha, hkv⟩ | ⟨hnil, _⟩
    · exact ⟨c, a, hc, ha, hkv.imp And.left And.left⟩
    · simp [GoMap.index] at hnil
  · exact AggregateImagePullSecretsData.loop_wf credentials images [] List.nodup_nil
  · intro hwf
    have := AggregateImagePullSecretsData.loop_length credentials images [] hwf
      (by simp [GoMap.keys])
    simpa [AggregateImagePullSecretsData] using this
  · intro c c' hne
    exact ⟨fun h => hne ((usernameKey_inj c c').1 h), usernameKey_ne_passwordKey c c',
      (usernameKey_ne_passwordKey c' c).symm, fun h => hne ((passwordKey_inj c c').1 h)⟩
  · decide

/-! ## Lemmas on `MapContainerNamesToDockerAuths` -/

theorem ContainerCredential.cons_self {D : Docker} {auths : GoMap Auth} {c₀ ref₀ : String}
    {rest : ContainerImages} {a : Auth} :
    ContainerCredential D auths ((c₀, ref₀) :: rest) c₀ a ↔
      ∃ server, D.GetServerFromImageRef ref₀ = .ok server ∧ auths.index server = some a := by
  simp [ContainerCredential, GoMap.index]

theorem ContainerCredential.cons_ne {D : Docker} {auths : GoMap Auth} {c₀ ref₀ c : String}
    {rest : ContainerImages} {a : Auth} (h : c₀ ≠ c) :
    ContainerCredential D auths ((c₀, ref₀) :: rest) c a ↔
      ContainerCredential D auths rest c a := by
  simp [ContainerCredential, GoMap.index, h]

theorem MapContainerNamesToDockerAuths.imagesLoop_index (D : Docker) (auths : GoMap Auth)
    (c : String) (a : Auth) :
    ∀ (images : ContainerImages) (acc m : GoMap Auth), images.WF →
      MapContainerNamesToDockerAuths.imagesLoop D auths images acc = .ok m →
      (m.index c = some a ↔
        ContainerCredential D auths images c a ∨
        (acc.index c = some a ∧ ¬ ∃ a', ContainerCredential D auths images c a')) := by
  intro images
  induction images with
  | nil =>
    intro acc m _ hm
    simp only [MapContainerNamesToDockerAuths.imagesLoop, Except.ok.injEq] at hm
    subst hm
    simp [ContainerCredential, GoMap.index]
  | cons e rest ih =>
    obtain ⟨c₀, ref₀⟩ := e
    intro acc m hwf hm
    have hwf' : GoMap.WF rest := (List.nodup_cons.1 hwf).2
    have hc₀ : c₀ ∉ GoMap.keys rest := (List.nodup_cons.1 hwf).1
    have hnone : ∀ a', ¬ ContainerCredential D auths rest c₀ a' := by
      rintro a' ⟨ref, server, hidx, _⟩
      rw [(GoMap.index_eq_none_iff rest c₀).2 hc₀] at hidx
      cases hidx
    simp only [MapContainerNamesToDockerAuths.imagesLoop] at hm
    cases hserver : D.GetServerFromImageRef ref₀ with
    | error err =>
      rw [hserver] at hm
      cases hm
    | ok server₀ =>
      simp only [hserver] at hm
      cases hauth : auths.index server₀ with
      | some a₀ =>
        simp only [hauth] at hm
        rw [ih _ _ hwf' hm, GoMap.index_store]
        by_cases hc : c₀ = c
        · subst hc
          simp only [ContainerCredential.cons_self, hserver, Except.ok.injEq, exists_eq_left',
            hauth, if_true, Option.some.injEq]
          constructor
          · rintro (h | ⟨h, _⟩)
            · exact absurd h (hnone a)
            · exact Or.inl h
          · rintro (h | ⟨_, h⟩)
            · exact Or.inr ⟨h, fun ⟨a', h'⟩ => hnone a' h'⟩
            · exact absurd ⟨a₀, rfl⟩ h
        · simp only [ContainerCredential.cons_ne hc, hc, if_false]
      | none =>
        simp only [hauth] at hm
        rw [ih _ _ hwf' hm]
        by_cases hc : c₀ = c
        · subst hc
          simp only [ContainerCredential.cons_self, hserver, Except.ok.injEq, exists_eq_left',
            hauth]
          constructor
          · rintro (h | ⟨h, _⟩)
            · exact absurd h (hnone a)
            · exact Or.inr ⟨h, by simp⟩
          · rintro (h | ⟨h, _⟩)
            · cases h
            · exact Or.inr ⟨h, fun ⟨a', h'⟩ => hnone a' h'⟩
        · simp only [ContainerCredential.cons_ne hc]

/-- C4: when `MapContainerNamesToDockerAuths(images, secrets)` succeeds with the
mapping `m` and `auths` is `MapDockerRegistryServersToAuths(secrets)`, a
container name `c` is a key of `m` exactly when it is a key of `images` and
`docker.GetServerFromImageRef(images[c])` is a key of `auths`, and `m[c]` is
that entry of `auths`; a container whose image host is no key of `auths` is no
key of `m`, and `AggregateImagePullSecretsData(images, m)` has neither the key
`c.username` nor the key `c.password`. -/
theorem C4_unmatched_container_absent (D : Docker) (images : ContainerImages)
    (secrets : List Secret) (m : GoMap Auth) (hwf : images.WF)
    (hm : MapContainerNamesToDockerAuths D images secrets = .ok m) :
    ∃ auths, MapDockerRegistryServersToAuths D secrets = .ok auths ∧
      (∀ c a, m.index c = some a ↔
        ∃ imageRef server, images.index c = some imageRef ∧
          D.GetServerFromImageRef imageRef = .ok server ∧ auths.index server = some a) ∧
      (∀ c, c ∈ m.keys ↔
        ∃ imageRef server, images.index c = some imageRef ∧
          D.GetServerFromImageRef imageRef = .ok server ∧ server ∈ auths.keys) ∧
      (∀ c imageRef server, images.index c = some imageRef →
        D.GetServerFromImageRef imageRef = .ok server → server ∉ auths.keys →
        c ∉ m.keys ∧
        c ++ ".username" ∉ (AggregateImagePullSecretsData images m).keys ∧
        c ++ ".password" ∉ (AggregateImagePullSecretsData images m).keys) := by
  unfold MapContainerNamesToDockerAuths at hm
  cases hauths : MapDockerRegistryServersToAuths D secrets with
  | error err =>
    rw [hauths] at hm
    cases hm
  | ok auths =>
    simp only [hauths] at hm
    have hidx : ∀ c a, m.index c = some a ↔ ContainerCredential D auths images c a := by
      intro c a
      rw [MapContainerNamesToDockerAuths.imagesLoop_index D auths c a images [] m hwf hm]
      simp [GoMap.index]
    have hkeys : ∀ c, c ∈ m.keys ↔
        ∃ imageRef server, images.index c = some imageRef ∧
          D.GetServerFromImageRef imageRef = .ok server ∧ server ∈ auths.keys := by
      intro c
      rw [GoMap.mem_keys_iff]
      constructor
      · rintro ⟨a, ha⟩
        obtain ⟨ref, server, h₁, h₂, h₃⟩ := (hidx c a).1 ha
        exact ⟨ref, server, h₁, h₂, (GoMap.mem_keys_iff _ _).2 ⟨a, h₃⟩⟩
      · rintro ⟨ref, server, h₁, h₂, h₃⟩
        obtain ⟨a, ha⟩ := (GoMap.mem_keys_iff _ _).1 h₃
        exact ⟨a, (hidx c a).2 ⟨ref, server, h₁, h₂, ha⟩⟩
    refine ⟨auths, rfl, hidx, hkeys, ?_⟩
    intro c ref server h₁ h₂ h₃
    have habsent : c ∉ m.keys := by
      intro hc
      obtain ⟨ref', server', h₁', h₂', h₃'⟩ := (hkeys c).1 hc
      rw [h₁] at h₁'
      cases h₁'
      rw [h₂] at h₂'
      cases h₂'
      exact h₃ h₃'
    have hnone : ∀ a, m.index c ≠ some a := fun a ha =>
      habsent ((GoMap.mem_keys_iff m c).2 ⟨a, ha⟩)
    refine ⟨habsent, ?_, ?_⟩
    · intro hk
      obtain ⟨v, hv⟩ := (GoMap.mem_keys_iff _ _).1 hk
      rcases (AggregateImagePullSecretsData.loop_index m _ v images []).1 hv with
        ⟨c', a', _, ha', hkv⟩ | ⟨hnil, _⟩
      · rcases hkv with ⟨hkv, _⟩ | ⟨hkv, _⟩
        · rw [← (usernameKey_inj c c').1 hkv] at ha'
          exact hnone a' ha'
        · exact usernameKey_ne_passwordKey c c' hkv
      · simp [GoMap.index] at hnil
    · intro hk
      obtain ⟨v, hv⟩ := (GoMap.mem_keys_iff _ _).1 hk
      rcases (AggregateImagePullSecretsData.loop_index m _ v images []).1 hv with
        ⟨c', a', _, ha', hkv⟩ | ⟨hnil, _⟩
      · rcases hkv with ⟨hkv, _⟩ | ⟨hkv, _⟩
        · exact usernameKey_ne_passwordKey c' c hkv.symm
        · rw [← (passwordKey_inj c c').1 hkv] at ha'
          exact hnone a' ha'
      · simp [GoMap.index] at hnil

/-! ## The codec of the examples is a codec -/

theorem demo_char_bytes (c : Char) :
    Char.ofNat ((UInt8.ofNat (c.toNat / 65536)).toNat * 65536
      + (UInt8.ofNat (c.toNat / 256 % 256)).toNat * 256
      + (UInt8.ofNat (c.toNat % 256)).toNat) = c := by
  have hlt : c.toNat < 1114112 := by
    have := c.valid
    simp only [UInt32.isValidChar, Nat.isValidChar] at this
    have h : c.toNat = c.val.toNat := rfl
    omega
  have h₂ : (UInt8.ofNat (c.toNat / 65536)).toNat = c.toNat / 65536 := by
    apply UInt8.toNat_ofNat_of_lt
    show _ < 256
    omega
  have h₁ : (UInt8.ofNat (c.toNat / 256 % 256)).toNat = c.toNat / 256 % 256 := by
    apply UInt8.toNat_ofNat_of_lt
    show _ < 256
    omega
  have h₀ : (UInt8.ofNat (c.toNat % 256)).toNat = c.toNat % 256 := by
    apply UInt8.toNat_ofNat_of_lt
    show _ < 256
    omega
  rw [h₂, h₁, h₀]
  have : c.toNat / 65536 * 65536 + c.toNat / 256 % 256 * 256 + c.toNat % 256 = c.toNat := by
    omega
  rw [this]
  exact Char.ofNat_toNat c

theorem demoDecodeChars_zero (rest : Bytes) : demoDecodeChars (0 :: rest) = some ([], rest) := by
  match rest with
  | [] => rfl
  | [_] => rfl
  | [_, _] => rfl
  | _ :: _ :: _ :: _ => rfl

theorem demoDecodeChars_encode (cs : List Char) (rest : Bytes) :
    demoDecodeChars (demoEncodeChars cs ++ rest) = some (cs, rest) := by
  induction cs with
  | nil => exact demoDecodeChars_zero rest
  | cons c cs ih =>
    have ih' : demoDecodeChars (List.append (demoEncodeChars cs) rest) = some (cs, rest) := ih
    simp only [demoEncodeChars, List.cons_append, demoDecodeChars, demo_char_bytes]
    rw [ih']
    simp

theorem demoDecodeEntries_encode (cfg : GoMap Auth) :
    ∀ fuel, cfg.length < fuel → demoDecodeEntries fuel (demoEncodeEntries cfg) = some cfg := by
  induction cfg with
  | nil =>
    intro fuel h
    cases fuel with
    | zero => omega
    | succ n => simp [demoEncodeEntries, demoDecodeEntries]
  | cons e rest ih =>
    obtain ⟨server, auth⟩ := e
    intro fuel h
    cases fuel with
    | zero => omega
    | succ n =>
      have hn : rest.length < n := by
        simp only [List.length_cons] at h
        omega
      simp only [demoEncodeEntries, demoDecodeEntries, demoDecodeChars_encode, ih n hn]
      simp

theorem demoEncodeEntries_length (cfg : GoMap Auth) :
    cfg.length < (demoEncodeEntries cfg).length := by
  induction cfg with
  | nil => simp [demoEncodeEntries]
  | cons e rest ih =>
    obtain ⟨server, auth⟩ := e
    simp only [demoEncodeEntries, List.length_cons, List.length_append]
    omega

theorem demoDocker_readInvertsWrite : ReadInvertsWrite demoDocker := by
  intro cfg b hb
  simp only [demoDocker, Except.ok.injEq] at hb
  subst hb
  refine ⟨cfg, ?_, List.Perm.refl _⟩
  simp only [demoDocker]
  rw [demoDecodeEntries_encode cfg.Auths _ (demoEncodeEntries_length cfg.Auths)]

/-- C3: under the assumption that `Read` inverts `Write`, when
`NewImagePullSecret(meta, server, username, password)` succeeds with the Secret
`s` and `docker.GetHostFromServer(server)` is `h`,
`MapDockerRegistryServersToAuths([s])` succeeds, `h` is the only key of its
result, and the credential at `h` has the user name `username` and the password
`password`. -/
theorem C3_build_then_parse (D : Docker) (meta : ObjectMeta)
    (server username password : String) (s : Secret) (h : String)
    (hrw : ReadInvertsWrite D)
    (hnew : NewImagePullSecret D meta server username password = .ok s)
    (hhost : D.GetHostFromServer server = .ok h) :
    ∃ auths a, MapDockerRegistryServersToAuths D [s] = .ok auths ∧
      auths.index h = some a ∧ a.Username = username ∧ a.Password = password ∧
      auths.keys = [h] := by
  unfold NewImagePullSecret at hnew
  split at hnew
  · cases hnew
  · rename_i b hw
    simp only [Except.ok.injEq] at hnew
    subst hnew
    obtain ⟨cfg', hread, hperm⟩ := hrw _ b hw
    have hauths := List.perm_singleton.1 hperm
    refine ⟨[(h, ⟨D.NewBasicAuth username password, username, password⟩)],
      ⟨D.NewBasicAuth username password, username, password⟩, ?_, ?_, rfl, rfl, rfl⟩
    · simp [MapDockerRegistryServersToAuths, MapDockerRegistryServersToAuths.secretsLoop,
        dockerConfigJson, GoMap.index, hread, hauths,
        MapDockerRegistryServersToAuths.authsLoop, hhost, GoMap.store]
    · simp [GoMap.index]

/-! ## Examples -/

theorem C1_witness :
    (reader.ListImagePullSecretsByPodSpec { clientset := demoClientset }
        { ImagePullSecrets := [{ Name := "regcred" }], ServiceAccountName := "" } "prod").1
      = .ok [demoSecret "regcred", demoSecret "regcred"] ∧
    ListImagePullSecretsByPodSpecContract demoClientset.SecretsGet
      demoClientset.ServiceAccountsGet
      (reader.ListByLocalObjectReferences { clientset := demoClientset })
      (reader.ListByServiceAccount { clientset := demoClientset })
      { ImagePullSecrets := [{ Name := "regcred" }], ServiceAccountName := "" } "prod"
      [demoSecret "regcred", demoSecret "regcred"] :=
  ⟨by decide,
    (C1_listImagePullSecretsByPodSpec _ _ _).1 { clientset := demoClientset } (by decide)⟩

theorem C2_witness :
    (reader.ListImagePullSecretsByPodSpec { clientset := demoClientset }
        { ImagePullSecrets := [{ Name := "regcred" }], ServiceAccountName := "" } "prod"
      = reader.ListImagePullSecretsByPodSpec { clientset := demoClientset }
        { ImagePullSecrets := [{ Name := "regcred" }], ServiceAccountName := "default" } "prod") ∧
    (crReader.ListImagePullSecretsByPodSpec { client := demoClient }
        { ImagePullSecrets := [{ Name := "regcred" }], ServiceAccountName := "" } "prod"
      = crReader.ListImagePullSecretsByPodSpec { client := demoClient }
        { ImagePullSecrets := [{ Name := "regcred" }], ServiceAccountName := "default" } "prod") ∧
    ApiCall.getServiceAccount "prod" "default" ∈
      (reader.ListImagePullSecretsByPodSpec { clientset := demoClientset }
        { ImagePullSecrets := [{ Name := "regcred" }], ServiceAccountName := "" } "prod").2 ∧
    ApiCall.getServiceAccount "prod" "default" ∈
      (crReader.ListImagePullSecretsByPodSpec { client := demoClient }
        { ImagePullSecrets := [{ Name := "regcred" }], ServiceAccountName := "" } "prod").2 ∧
    (reader.ListImagePullSecretsByPodSpec { clientset := demoClientset }
        { ImagePullSecrets := [{ Name := "regcred" }], ServiceAccountName := "" } "prod").1
      = .ok ([demoSecret "regcred"] ++ [demoSecret "regcred"]) ∧
    (crReader.ListImagePullSecretsByPodSpec { client := demoClient }
        { ImagePullSecrets := [{ Name := "extra" }], ServiceAccountName := "" } "prod").1
      = .ok ([demoSecret "extra"] ++ [demoSecret "regcred"]) ∧
    (reader.ListImagePullSecretsByPodSpec { clientset := demoClientset }
        { ImagePullSecrets := [{ Name := "regcred" }], ServiceAccountName := "" } "prod").2
      = [.getSecret "prod" "regcred", .getServiceAccount "prod" "default",
         .getSecret "prod" "regcred"] :=
  ⟨((C2_defaultServiceAccount
      { ImagePullSecrets := [{ Name := "regcred" }], ServiceAccountName := "" } "prod" rfl).1
      { clientset := demoClientset }).1,
   ((C2_defaultServiceAccount
      { ImagePullSecrets := [{ Name := "regcred" }], ServiceAccountName := "" } "prod" rfl).2
      { client := demoClient }).1,
   (((C2_defaultServiceAccount
      { ImagePullSecrets := [{ Name := "regcred" }], ServiceAccountName := "" } "prod" rfl).1
      { clientset := demoClientset }).2.2 [demoSecret "regcred"] (by decide)).1,
   (((C2_defaultServiceAccount
      { ImagePullSecrets := [{ Name := "regcred" }], ServiceAccountName := "" } "prod" rfl).2
      { client := demoClient }).2.2 [demoSecret "regcred"] (by decide)).1,
   ((((C2_defaultServiceAccount
      { ImagePullSecrets := [{ Name := "regcred" }], ServiceAccountName := "" } "prod" rfl).1
      { clientset := demoClientset }).2.2 [demoSecret "regcred"] (by decide)).2.2
      { ObjectMeta := { Name := "default", Namespace := "prod" }
        ImagePullSecrets := [{ Name := "regcred" }] } (by decide)).1
      [demoSecret "regcred"] (by decide),
   ((((C2_defaultServiceAccount
      { ImagePullSecrets := [{ Name := "extra" }], ServiceAccountName := "" } "prod" rfl).2
      { client := demoClient }).2.2 [demoSecret "extra"] (by decide)).2.2
      { ObjectMeta := { Name := "default", Namespace := "prod" }
        ImagePullSecrets := [{ Name := "regcred" }] } (by decide)).1
      [demoSecret "regcred"] (by decide),
   by decide⟩

theorem C3_witness :
    NewImagePullSecret demoDocker { Name := "regcred", Namespace := "prod" }
        "https://index.docker.io/v1/" "u" "p"
      = .ok (demoConfigSecret "regcred"
          [("https://index.docker.io/v1/", { Auth := "u:p", Username := "u", Password := "p" })]) ∧
    demoDocker.GetHostFromServer "https://index.docker.io/v1/" = .ok "index.docker.io" ∧
    ∃ auths a,
      MapDockerRegistryServersToAuths demoDocker [demoConfigSecret "regcred"
          [("https://index.docker.io/v1/", { Auth := "u:p", Username := "u", Password := "p" })]]
        = .ok auths ∧
      auths.index "index.docker.io" = some a ∧ a.Username = "u" ∧ a.Password = "p" ∧
      auths.keys = ["index.docker.io"] :=
  ⟨by decide, by decide,
    C3_build_then_parse demoDocker { Name := "regcred", Namespace := "prod" }
      "https://index.docker.io/v1/" "u" "p" _ "index.docker.io" demoDocker_readInvertsWrite
      (by decide) (by decide)⟩

theorem C4_witness :
    MapContainerNamesToDockerAuths demoDocker
        [("app", "registry.example.com/app:1.0"), ("sidecar", "quay.io/org/tool:v2")]
        [demoConfigSecret "regcred"
          [("https://registry.example.com", { Auth := "u:p", Username := "u", Password := "p" })]]
      = .ok [("app", { Auth := "u:p", Username := "u", Password := "p" })] ∧
    ∃ auths,
      MapDockerRegistryServersToAuths demoDocker [demoConfigSecret "regcred"
          [("https://registry.example.com", { Auth := "u:p", Username := "u", Password := "p" })]]
        = .ok auths ∧
      "quay.io" ∉ auths.keys ∧
      "sidecar" ∉ GoMap.keys [("app", ({ Auth := "u:p", Username := "u", Password := "p" } : Auth))] ∧
      "sidecar.username" ∉ (AggregateImagePullSecretsData
        [("app", "registry.example.com/app:1.0"), ("sidecar", "quay.io/org/tool:v2")]
        [("app", { Auth := "u:p", Username := "u", Password := "p" })]).keys ∧
      "sidecar.password" ∉ (AggregateImagePullSecretsData
        [("app", "registry.example.com/app:1.0"), ("sidecar", "quay.io/org/tool:v2")]
        [("app", { Auth := "u:p", Username := "u", Password := "p" })]).keys := by
  refine ⟨by decide, ?_⟩
  obtain ⟨auths, hauths, _, _, habsent⟩ := C4_unmatched_container_absent demoDocker
    [("app", "registry.example.com/app:1.0"), ("sidecar", "quay.io/org/tool:v2")]
    [demoConfigSecret "regcred"
      [("https://registry.example.com", { Auth := "u:p", Username := "u", Password := "p" })]]
    [("app", { Auth := "u:p", Username := "u", Password := "p" })] (by decide) (by decide)
  have hval : MapDockerRegistryServersToAuths demoDocker [demoConfigSecret "regcred"
      [("https://registry.example.com", { Auth := "u:p", Username := "u", Password := "p" })]]
      = .ok [("registry.example.com", { Auth := "u:p", Username := "u", Password := "p" })] := by
    decide
  have hq : "quay.io" ∉ auths.keys := by
    rw [hval] at hauths
    cases hauths
    decide
  exact ⟨auths, hauths, hq,
    habsent "sidecar" "quay.io/org/tool:v2" "quay.io" (by decide) (by decide) hq⟩

theorem C6_witness :
    (reader.ListByLocalObjectReferences { clientset := demoClientset }
        [{ Name := "regcred" }, { Name := "gone" }, { Name := "extra" }, { Name := "lost" }]
        "prod").1
      = .error (.wrapError "getting secret by name: prod/gone: secrets \"gone\" not found"
          (.errorString "secrets \"gone\" not found")) :=
  (((C6_listByLocalObjectReferences
      [{ Name := "regcred" }, { Name := "gone" }, { Name := "extra" }, { Name := "lost" }]
      "prod").1 { clientset := demoClientset }).2.1
    [{ Name := "regcred" }] { Name := "gone" } [{ Name := "extra" }, { Name := "lost" }]
    (.errorString "secrets \"gone\" not found") rfl
    (by
      intro x hx
      rw [List.mem_singleton.1 hx]
      exact ⟨demoSecret "regcred", by decide⟩)
    (by decide)).1

theorem C7_witness :
    (reader.ListByServiceAccount { clientset := demoClientset } "nobody" "prod").1
      = .error (.wrapError
          "getting service account by name: prod/nobody: serviceaccounts \"nobody\" not found"
          (.errorString "serviceaccounts \"nobody\" not found")) :=
  ((((C7_listByServiceAccount "nobody" "prod").1 { clientset := demoClientset }).1
    (.errorString "serviceaccounts \"nobody\" not found") (by decide)).1)

theorem C9_witness :
    ∃ e, MapDockerRegistryServersToAuths demoDocker
      [demoConfigSecret "regcred"
        [("https://registry.example.com", { Auth := "u:p", Username := "u", Password := "p" })],
       demoMalformedSecret] = .error e :=
  (C9_map_servers_failure demoDocker
      [demoConfigSecret "regcred"
        [("https://registry.example.com", { Auth := "u:p", Username := "u", Password := "p" })],
       demoMalformedSecret]).1.2
    ⟨demoMalformedSecret, by simp, Or.inl ⟨.errorString "malformed docker config", by decide⟩⟩

theorem C10_witness :
    (∀ refs ns,
      reader.ListByLocalObjectReferences { clientset := demoClientset } refs ns
        = crReader.ListByLocalObjectReferences { client := demoClient } refs ns) ∧
    (∀ name ns,
      reader.ListByServiceAccount { clientset := demoClientset } name ns
        = crReader.ListByServiceAccount { client := demoClient } name ns) ∧
    (∀ spec ns,
      reader.ListImagePullSecretsByPodSpec { clientset := demoClientset } spec ns
        = crReader.ListImagePullSecretsByPodSpec { client := demoClient } spec ns) :=
  C10_readers_equivalent demoClientset demoClient (fun _ _ => rfl) (fun _ _ => rfl)

theorem C8_witness :
    MapDockerRegistryServersToAuths demoDocker
        [demoConfigSecret "old"
          [("registry.example.com", { Auth := "a:b", Username := "a", Password := "b" })],
         demoConfigSecret "new"
          [("https://registry.example.com/v2/",
            { Auth := "u:p", Username := "u", Password := "p" })]]
      = .ok [("registry.example.com", { Auth := "u:p", Username := "u", Password := "p" })] ∧
    ∃ pre s post cfg server,
      [demoConfigSecret "old"
          [("registry.example.com", { Auth := "a:b", Username := "a", Password := "b" })],
        demoConfigSecret "new"
          [("https://registry.example.com/v2/",
            { Auth := "u:p", Username := "u", Password := "p" })]] = pre ++ s :: post ∧
      demoDocker.Read (dockerConfigJson s) = .ok cfg ∧
      (server, ({ Auth := "u:p", Username := "u", Password := "p" } : Auth)) ∈ cfg.Auths ∧
      demoDocker.GetHostFromServer server = .ok "registry.example.com" ∧
      (∀ e ∈ cfg.Auths, demoDocker.GetHostFromServer e.1 = .ok "registry.example.com" →
        e = (server, { Auth := "u:p", Username := "u", Password := "p" })) ∧
      ∀ s' ∈ post, ∀ cfg', demoDocker.Read (dockerConfigJson s') = .ok cfg' →
        ∀ e ∈ cfg'.Auths, demoDocker.GetHostFromServer e.1 ≠ .ok "registry.example.com" :=
  ⟨by decide,
    C8_later_secrets_overwrite demoDocker _
      [("registry.example.com", { Auth := "u:p", Username := "u", Password := "p" })]
      "registry.example.com" { Auth := "u:p", Username := "u", Password := "p" } (by decide)
      (by
        have hold : demoDocker.Read (dockerConfigJson (demoConfigSecret "old"
            [("registry.example.com", { Auth := "a:b", Username := "a", Password := "b" })]))
            = .ok { Auths := [("registry.example.com",
                { Auth := "a:b", Username := "a", Password := "b" })] } := by decide
        have hnew : demoDocker.Read (dockerConfigJson (demoConfigSecret "new"
            [("https://registry.example.com/v2/",
              { Auth := "u:p", Username := "u", Password := "p" })]))
            = .ok { Auths := [("https://registry.example.com/v2/",
                { Auth := "u:p", Username := "u", Password := "p" })] } := by decide
        intro s hs cfg hread e₁ he₁ e₂ he₂ _ _
        simp only [List.mem_cons, List.mem_singleton, List.not_mem_nil, or_false] at hs
        rcases hs with rfl | rfl
        · rw [hold] at hread
          cases hread
          rw [List.mem_singleton.1 he₁, List.mem_singleton.1 he₂]
        · rw [hnew] at hread
          cases hread
          rw [List.mem_singleton.1 he₁, List.mem_singleton.1 he₂])
      (by decide)⟩

theorem C5_witness :
    GoMap.WF [("app", "registry.example.com/app:1.0"), ("sidecar", "quay.io/org/tool:v2"),
      ("db", "postgres:13")] ∧
    (AggregateImagePullSecretsData
        [("app", "registry.example.com/app:1.0"), ("sidecar", "quay.io/org/tool:v2"),
          ("db", "postgres:13")]
        [("db", { Auth := "a:b", Username := "a", Password := "b" }),
          ("app", { Auth := "u:p", Username := "u", Password := "p" })]).length
      = 2 * (matchedContainers
        [("app", "registry.example.com/app:1.0"), ("sidecar", "quay.io/org/tool:v2"),
          ("db", "postgres:13")]
        [("db", { Auth := "a:b", Username := "a", Password := "b" }),
          ("app", { Auth := "u:p", Username := "u", Password := "p" })]).length ∧
    (matchedContainers
        [("app", "registry.example.com/app:1.0"), ("sidecar", "quay.io/org/tool:v2"),
          ("db", "postgres:13")]
        [("db", { Auth := "a:b", Username := "a", Password := "b" }),
          ("app", { Auth := "u:p", Username := "u", Password := "p" })]).length = 2 :=
  ⟨by decide,
    (C5_aggregate_two_entries_per_container.1
      [("app", "registry.example.com/app:1.0"), ("sidecar", "quay.io/org/tool:v2"),
        ("db", "postgres:13")]
      [("db", { Auth := "a:b", Username := "a", Password := "b" }),
        ("app", { Auth := "u:p", Username := "u", Password := "p" })]).2.2.2 (by decide),
    by decide⟩

end Kube
